import Mathlib

/-!
Verification of the citation-graph construction and hybrid retrieval engine
of the sionic-hackerton repository.

The development shallowly embeds the relevant Python sources:

* `extract_relations.py` — identifier extraction (`extract_own_doc_number`)
  and citation resolution (`extract_relations`), including a faithful model
  of the regex `([가-힣]+(?:[ ][가-힣]+)*-\d+)` under Python `re` semantics;
* `scripts/extract_relations.py` — the CSV-driven citation pass that uses a
  negative lookahead `(?!\d|-)` per known document number;
* `graph_db/api_server_real.py` and `graph_db/api_server.py` — the retrieval
  pipeline (`search`, `get_complaint_context`, `get_document_context`,
  `get_expanded_context`), with external collaborators (vector indexes,
  graph store, generation model) modelled as `Except`-returning functions;
* `graph_db/302_add_complaints_node.py` — the RELATED_TO linking step.

Text is modelled as `List Char` (Python strings are sequences of code
points, and Python slicing such as `content[:1000]` is by code point, which
matches `List.take`).  Fallible collaborator calls are modelled in `Except`;
an uncaught Python exception is an `Except.error` that propagates.
Similarity scores (floats compared only against constants) are modelled as
rationals.
-/

set_option autoImplicit false
set_option maxHeartbeats 1000000

namespace Sionic

/-- Characters matched by the regex class `[가-힣]` (Hangul syllables,
U+AC00 to U+D7A3). -/
def isHangul (c : Char) : Bool := 0xAC00 ≤ c.toNat && c.toNat ≤ 0xD7A3

/-- Membership of a code point in a list of closed code-point ranges. -/
def inRanges (t : List (Nat × Nat)) (n : Nat) : Bool :=
  t.any (fun p => p.1 ≤ n && n ≤ p.2)

/-- Code-point ranges of the Unicode general category Nd (Unicode 14.0, as
tabulated by CPython 3.11): exactly the characters matched by `\d` when
`re` operates on `str`. -/
def ndRanges : List (Nat × Nat) :=
  [(0x30, 0x39), (0x660, 0x669), (0x6F0, 0x6F9), (0x7C0, 0x7C9),
   (0x966, 0x96F), (0x9E6, 0x9EF), (0xA66, 0xA6F), (0xAE6, 0xAEF),
   (0xB66, 0xB6F), (0xBE6, 0xBEF), (0xC66, 0xC6F), (0xCE6, 0xCEF),
   (0xD66, 0xD6F), (0xDE6, 0xDEF), (0xE50, 0xE59), (0xED0, 0xED9),
   (0xF20, 0xF29), (0x1040, 0x1049), (0x1090, 0x1099), (0x17E0, 0x17E9),
   (0x1810, 0x1819), (0x1946, 0x194F), (0x19D0, 0x19D9), (0x1A80, 0x1A89),
   (0x1A90, 0x1A99), (0x1B50, 0x1B59), (0x1BB0, 0x1BB9), (0x1C40, 0x1C49),
   (0x1C50, 0x1C59), (0xA620, 0xA629), (0xA8D0, 0xA8D9), (0xA900, 0xA909),
   (0xA9D0, 0xA9D9), (0xA9F0, 0xA9F9), (0xAA50, 0xAA59), (0xABF0, 0xABF9),
   (0xFF10, 0xFF19), (0x104A0, 0x104A9), (0x10D30, 0x10D39),
   (0x11066, 0x1106F), (0x110F0, 0x110F9), (0x11136, 0x1113F),
   (0x111D0, 0x111D9), (0x112F0, 0x112F9), (0x11450, 0x11459),
   (0x114D0, 0x114D9), (0x11650, 0x11659), (0x116C0, 0x116C9),
   (0x11730, 0x11739), (0x118E0, 0x118E9), (0x11950, 0x11959),
   (0x11C50, 0x11C59), (0x11D50, 0x11D59), (0x11DA0, 0x11DA9),
   (0x16A60, 0x16A69), (0x16AC0, 0x16AC9), (0x16B50, 0x16B59),
   (0x1D7CE, 0x1D7FF), (0x1E140, 0x1E149), (0x1E2F0, 0x1E2F9),
   (0x1E950, 0x1E959), (0x1FBF0, 0x1FBF9)]

/-- Characters matched by `\d` (every Unicode decimal digit, e.g. also the
fullwidth `１` U+FF11), not just ASCII `0`–`9`. -/
def isDigitCh (c : Char) : Bool := inRanges ndRanges c.toNat

/-- Code-point ranges of the characters matched by `\s` when `re` operates
on `str`; `str.strip()` strips exactly the same set. -/
def spaceRanges : List (Nat × Nat) :=
  [(0x9, 0xD), (0x1C, 0x20), (0x85, 0x85), (0xA0, 0xA0), (0x1680, 0x1680),
   (0x2000, 0x200A), (0x2028, 0x2029), (0x202F, 0x202F), (0x205F, 0x205F),
   (0x3000, 0x3000)]

/-- Characters matched by `\s` / stripped by `str.strip()` (Unicode
whitespace, e.g. also the ideographic space U+3000 and U+00A0). -/
def isSpaceCh (c : Char) : Bool := inRanges spaceRanges c.toNat

/-!
### The document-number regex

`DOC_NUM_PATTERN = re.compile(r'([가-힣]+(?:[ ][가-힣]+)*-\d+)')`

Matching this pattern at a fixed start position is deterministic, so it is
embedded without a backtracking engine:

* `[가-힣]+` is greedy; giving back characters cannot help, because the
  continuation would then have to match at a Hangul character, and the
  continuation (`[ ]` or `-`) never accepts a Hangul character;
* `(?:[ ][가-힣]+)*` is greedy; if the engine backtracked to fewer group
  iterations, the continuation `-` would have to match at the `' '` that
  started the next iteration, which fails;
* the final `\d+` is greedy and nothing follows it in the pattern.

Hence the Python engine accepts at a position exactly when the maximal
greedy consumption below succeeds.
-/

/-- Greedy matcher for `(?:[ ][가-힣]+)*`: returns the consumed characters
and the remaining input. -/
def matchSegs (l : List Char) : List Char × List Char :=
  match l with
  | ' ' :: rest =>
    let h := rest.takeWhile isHangul
    if h.isEmpty then ([], l)
    else
      let cr := matchSegs (rest.dropWhile isHangul)
      (' ' :: (h ++ cr.1), cr.2)
  | _ => ([], l)
termination_by l.length
decreasing_by
  simp only [List.length_cons]
  exact Nat.lt_succ_of_le (List.dropWhile_sublist _ |>.length_le)

/-- Greedy matcher for the trailing `-\d+` of the pattern: on success
returns the consumed characters and the remaining input. -/
def matchTail (l : List Char) : Option (List Char × List Char) :=
  match l with
  | '-' :: r2 =>
    let d := r2.takeWhile isDigitCh
    if d.isEmpty then none else some ('-' :: d, r2.dropWhile isDigitCh)
  | _ => none

/-- Anchored match of `DOC_NUM_PATTERN` at the head of `l`: on success
returns the matched text and the remaining input. -/
def matchDocNum (l : List Char) : Option (List Char × List Char) :=
  let h1 := l.takeWhile isHangul
  if h1.isEmpty then none
  else
    let sr := matchSegs (l.dropWhile isHangul)
    match matchTail sr.2 with
    | some tr => some (h1 ++ sr.1 ++ tr.1, tr.2)
    | none => none

theorem matchSegs_append (l : List Char) :
    (matchSegs l).1 ++ (matchSegs l).2 = l := by
  induction l using matchSegs.induct with
  | case1 rest h hemp =>
    simp [matchSegs, hemp]
  | case2 rest h hemp ih =>
    simp [matchSegs, hemp, List.append_assoc, ih]
  | case3 l hne =>
    match l, hne with
    | [], _ => simp [matchSegs]
    | c :: rest, hne =>
      have hc : ¬ c = ' ' := fun hceq => hne rest (by rw [hceq])
      simp [matchSegs, hc]

theorem matchSegs_head (l : List Char) :
    (matchSegs l).1 = [] ∨ ∃ t, (matchSegs l).1 = ' ' :: t := by
  induction l using matchSegs.induct with
  | case1 rest h hemp =>
    left; simp [matchSegs, hemp]
  | case2 rest h hemp ih =>
    right
    refine ⟨rest.takeWhile isHangul ++ (matchSegs (rest.dropWhile isHangul)).1, ?_⟩
    simp [matchSegs, hemp]
  | case3 l hne =>
    match l, hne with
    | [], _ => left; simp [matchSegs]
    | c :: rest, hne =>
      have hc : ¬ c = ' ' := fun hceq => hne rest (by rw [hceq])
      left; simp [matchSegs, hc]

/-!
### The shape of a document number

`isDocNumShaped m` recognises exactly the strings fully matching
`[가-힣]+(?:[ ][가-힣]+)*-\d+`.
-/

/-- Recogniser for `(?:[ ][가-힣]+)*-\d+` (the part after the leading
Hangul segment), consuming the whole input. -/
def shapedTail (l : List Char) : Bool :=
  match l with
  | '-' :: d => !d.isEmpty && d.all isDigitCh
  | ' ' :: rest =>
    !(rest.takeWhile isHangul).isEmpty && shapedTail (rest.dropWhile isHangul)
  | _ => false
termination_by l.length
decreasing_by
  simp only [List.length_cons]
  exact Nat.lt_succ_of_le (List.dropWhile_sublist _ |>.length_le)

/-- A string that is exactly a document number:
`[가-힣]+(?:[ ][가-힣]+)*-\d+` matching the whole string. -/
def isDocNumShaped (m : List Char) : Bool :=
  !(m.takeWhile isHangul).isEmpty && shapedTail (m.dropWhile isHangul)

theorem shapedTail_head {t : List Char} (h : shapedTail t = true) :
    t.head? = some '-' ∨ t.head? = some ' ' := by
  match t with
  | [] => simp [shapedTail] at h
  | c :: rest =>
    by_cases hc : c = '-'
    · subst hc; left; rfl
    · by_cases hs : c = ' '
      · subst hs; right; rfl
      · exfalso
        rw [shapedTail] at h
        · exact absurd h (by simp)
        · intro d hd
          injection hd with h1 _
          exact hc h1
        · intro r hr
          injection hr with h1 _
          exact hs h1

/-- The head of `dropWhile p l`, when present, fails `p`. -/
theorem head_dropWhile_false {α : Type} {p : α → Bool} (l : List α) :
    ∀ c ∈ (l.dropWhile p).head?, p c = false := by
  induction l with
  | nil => simp
  | cons x xs ih =>
    rw [List.dropWhile_cons]
    split
    · exact ih
    · rename_i hx
      intro c hc
      simp only [List.head?_cons, Option.mem_def, Option.some.injEq] at hc
      subst hc
      simpa using hx

/-- `takeWhile`/`dropWhile` across an append whose left part satisfies `p`
everywhere and whose right part starts with a failing character. -/
theorem takeWhile_append_not {p : Char → Bool} {a b : List Char}
    (ha : a.all p = true) (hb : ∀ c ∈ b.head?, p c = false) :
    (a ++ b).takeWhile p = a ∧ (a ++ b).dropWhile p = b := by
  have ha' : ∀ x ∈ a, p x := by simpa [List.all_eq_true] using ha
  constructor
  · rw [List.takeWhile_append_of_pos ha']
    rcases b with _ | ⟨c, b'⟩
    · simp
    · have : p c = false := hb c rfl
      simp [List.takeWhile_cons, this]
  · rw [List.dropWhile_append_of_pos ha']
    rcases b with _ | ⟨c, b'⟩
    · simp
    · have : p c = false := hb c rfl
      simp [List.dropWhile_cons, this]

theorem matchTail_spec {l td r : List Char} (h : matchTail l = some (td, r)) :
    td ++ r = l ∧ (∃ d, td = '-' :: d ∧ d ≠ [] ∧ d.all isDigitCh = true) ∧
      (∀ c ∈ r.head?, isDigitCh c = false) := by
  unfold matchTail at h
  split at h
  · rename_i r2
    by_cases hd : (r2.takeWhile isDigitCh).isEmpty
    · simp [hd] at h
    · simp only [hd, if_false, Bool.false_eq_true, Option.some.injEq, Prod.mk.injEq] at h
      obtain ⟨htd, hr⟩ := h
      refine ⟨?_, ⟨r2.takeWhile isDigitCh, htd.symm, ?_, ?_⟩, ?_⟩
      · rw [← htd, ← hr]
        simp [List.takeWhile_append_dropWhile]
      · simpa [List.isEmpty_iff] using hd
      · exact List.all_takeWhile
      · intro c hc
        rw [← hr] at hc
        exact head_dropWhile_false r2 c hc
  · exact absurd h (by simp)

theorem matchSegs_shapedTail (l : List Char) :
    ∀ d : List Char, d ≠ [] → d.all isDigitCh = true →
      shapedTail ((matchSegs l).1 ++ '-' :: d) = true := by
  induction l using matchSegs.induct with
  | case1 rest h hemp =>
    intro d hd hall
    match d, hd with
    | c :: d', _ =>
      simp [matchSegs, hemp, shapedTail, hall]
  | case2 rest h hemp ih =>
    intro d hd hall
    have hgoal : (matchSegs (' ' :: rest)).1 ++ '-' :: d
        = ' ' :: (rest.takeWhile isHangul ++
            ((matchSegs (rest.dropWhile isHangul)).1 ++ '-' :: d)) := by
      simp [matchSegs, hemp, List.append_assoc]
    have hstep := @takeWhile_append_not isHangul (rest.takeWhile isHangul)
        ((matchSegs (rest.dropWhile isHangul)).1 ++ '-' :: d)
        List.all_takeWhile ?_
    · rw [hgoal, shapedTail, hstep.1, hstep.2]
      simp only [Bool.and_eq_true, Bool.not_eq_true']
      exact ⟨Bool.eq_false_iff.mpr hemp, ih d hd hall⟩
    · intro c hc
      rcases matchSegs_head (rest.dropWhile isHangul) with h0 | ⟨t, ht⟩
      · rw [h0] at hc
        simp only [List.nil_append, List.head?_cons, Option.mem_def,
          Option.some.injEq] at hc
        subst hc
        decide
      · rw [ht] at hc
        simp only [List.cons_append, List.head?_cons, Option.mem_def,
          Option.some.injEq] at hc
        subst hc
        decide
  | case3 l hne =>
    intro d hd hall
    match l, hne with
    | [], _ =>
      match d, hd with
      | c :: d', _ => simp [matchSegs, shapedTail, hall]
    | c0 :: rest, hne =>
      have hc : ¬ c0 = ' ' := fun hceq => hne rest (by rw [hceq])
      match d, hd with
      | c :: d', _ => simp [matchSegs, hc, shapedTail, hall]

/-- A successful anchored match: the input splits as match ++ rest, the
match is nonempty and document-number shaped, and the rest does not begin
with a digit (the final `\d+` is greedy). -/
theorem matchDocNum_spec {l m r : List Char} (h : matchDocNum l = some (m, r)) :
    m ++ r = l ∧ m ≠ [] ∧ (∀ c ∈ r.head?, isDigitCh c = false) ∧
      isDocNumShaped m = true := by
  unfold matchDocNum at h
  by_cases h1 : (l.takeWhile isHangul).isEmpty
  · simp [h1] at h
  · simp only [h1, if_false, Bool.false_eq_true] at h
    split at h
    · rename_i tr htr
      simp only [Option.some.injEq, Prod.mk.injEq] at h
      obtain ⟨hm, hr⟩ := h
      obtain ⟨happ, ⟨d, htd, hdne, hdall⟩, hhead⟩ :=
        @matchTail_spec (matchSegs (l.dropWhile isHangul)).2 tr.1 tr.2 (by rw [htr])
      have hms := matchSegs_append (l.dropWhile isHangul)
      have htw : l.takeWhile isHangul ≠ [] := by
        intro hcon; rw [hcon] at h1; simp at h1
      refine ⟨?_, ?_, ?_, ?_⟩
      · rw [← hm, ← hr]
        calc l.takeWhile isHangul ++ (matchSegs (l.dropWhile isHangul)).1 ++ tr.1 ++ tr.2
            = l.takeWhile isHangul ++
              ((matchSegs (l.dropWhile isHangul)).1 ++ (tr.1 ++ tr.2)) := by
              simp [List.append_assoc]
          _ = l.takeWhile isHangul ++
              ((matchSegs (l.dropWhile isHangul)).1 ++ (matchSegs (l.dropWhile isHangul)).2) := by
              rw [happ]
          _ = l.takeWhile isHangul ++ l.dropWhile isHangul := by rw [hms]
          _ = l := List.takeWhile_append_dropWhile isHangul l
      · rw [← hm]
        intro hcon
        rcases heq : l.takeWhile isHangul with _ | ⟨c, t⟩
        · exact htw heq
        · rw [heq] at hcon; simp at hcon
      · intro c hc
        rw [← hr] at hc
        exact hhead c hc
      · rw [← hm, htd]
        have hsplit := @takeWhile_append_not isHangul (l.takeWhile isHangul)
            ((matchSegs (l.dropWhile isHangul)).1 ++ '-' :: d)
            List.all_takeWhile ?_
        · unfold isDocNumShaped
          have hassoc : l.takeWhile isHangul ++ (matchSegs (l.dropWhile isHangul)).1 ++ '-' :: d
              = l.takeWhile isHangul ++ ((matchSegs (l.dropWhile isHangul)).1 ++ '-' :: d) := by
            simp [List.append_assoc]
          rw [hassoc, hsplit.1, hsplit.2]
          simp only [Bool.and_eq_true, Bool.not_eq_true']
          refine ⟨Bool.eq_false_iff.mpr h1, matchSegs_shapedTail _ d hdne hdall⟩
        · intro c hc
          rcases matchSegs_head (l.dropWhile isHangul) with h0 | ⟨t, ht⟩
          · rw [h0] at hc
            simp only [List.nil_append, List.head?_cons, Option.mem_def,
              Option.some.injEq] at hc
            subst hc; decide
          · rw [ht] at hc
            simp only [List.cons_append, List.head?_cons, Option.mem_def,
              Option.some.injEq] at hc
            subst hc; decide
    · exact absurd h (by simp)

/-- Unfolding equation for `matchSegs` at a leading space. -/
theorem matchSegs_cons_space (X : List Char) :
    matchSegs (' ' :: X) = if (X.takeWhile isHangul).isEmpty then ([], ' ' :: X)
      else (' ' :: (X.takeWhile isHangul ++ (matchSegs (X.dropWhile isHangul)).1),
            (matchSegs (X.dropWhile isHangul)).2) := by
  by_cases hemp : (X.takeWhile isHangul).isEmpty
  · simp [matchSegs, hemp]
  · simp [matchSegs, hemp]

/-- A shaped tail decomposes as segments ++ `-` ++ digits, and greedy
matching of the segment part over any extension stops exactly at the `-`. -/
theorem shapedTail_extend {t : List Char} (h : shapedTail t = true) :
    ∃ s d, t = s ++ '-' :: d ∧ d ≠ [] ∧ d.all isDigitCh = true ∧
      (s = [] ∨ ∃ u, s = ' ' :: u) ∧
      ∀ post : List Char, matchSegs (t ++ post) = (s, '-' :: (d ++ post)) := by
  induction t using shapedTail.induct with
  | case1 d =>
    rw [shapedTail] at h
    simp only [Bool.and_eq_true, Bool.not_eq_true'] at h
    refine ⟨[], d, rfl, by simpa [List.isEmpty_iff] using h.1, h.2, Or.inl rfl, ?_⟩
    intro post
    have h45 : ¬ ('-' : Char) = ' ' := by decide
    simp [matchSegs, h45]
  | case2 rest ih =>
    rw [shapedTail] at h
    simp only [Bool.and_eq_true, Bool.not_eq_true'] at h
    obtain ⟨s', d, hdecomp, hdne, hdall, hshead, hms⟩ := ih (by
      have := h.2
      simpa using this)
    refine ⟨' ' :: (rest.takeWhile isHangul ++ s'), d, ?_, hdne, hdall,
      Or.inr ⟨_, rfl⟩, ?_⟩
    · have : rest = rest.takeWhile isHangul ++ rest.dropWhile isHangul :=
        (List.takeWhile_append_dropWhile isHangul rest).symm
      calc ' ' :: rest = ' ' :: (rest.takeWhile isHangul ++ rest.dropWhile isHangul) := by
            rw [← this]
        _ = ' ' :: (rest.takeWhile isHangul ++ (s' ++ '-' :: d)) := by rw [hdecomp]
        _ = (' ' :: (rest.takeWhile isHangul ++ s')) ++ '-' :: d := by
            simp [List.append_assoc]
    · intro post
      have hsplit := @takeWhile_append_not isHangul (rest.takeWhile isHangul)
          (rest.dropWhile isHangul ++ post)
          List.all_takeWhile ?_
      · have hre : rest ++ post
            = rest.takeWhile isHangul ++ (rest.dropWhile isHangul ++ post) := by
          rw [← List.append_assoc, List.takeWhile_append_dropWhile]
        have : matchSegs ((' ' :: rest) ++ post) = matchSegs (' ' :: (rest ++ post)) := by
          simp
        rw [this, matchSegs_cons_space, hre, hsplit.1, hsplit.2]
        rw [if_neg (by simp [h.1])]
        have hstep : matchSegs (rest.dropWhile isHangul ++ post)
            = (s', '-' :: (d ++ post)) := by
          rw [hdecomp]
          have := hms post
          rw [hdecomp] at this
          simpa [List.append_assoc] using this
        rw [hstep]
      · intro c hc
        rw [hdecomp] at hc
        rcases hshead with hs0 | ⟨u, hu⟩
        · rw [hs0] at hc
          simp only [List.nil_append, List.cons_append, List.head?_cons,
            Option.mem_def, Option.some.injEq] at hc
          subst hc; decide
        · rw [hu] at hc
          simp only [List.cons_append, List.head?_cons,
            Option.mem_def, Option.some.injEq] at hc
          subst hc; decide
  | case3 t h1 h2 =>
    rw [shapedTail] at h
    · exact absurd h (by simp)
    · intro d hd
      exact absurd hd (h1 d)
    · intro r hr
      exact absurd hr (h2 r)

/-- A document-number-shaped string followed by anything that does not
start with a digit is matched in full by the anchored matcher. -/
theorem matchDocNum_extend {m post : List Char} (hm : isDocNumShaped m = true)
    (hpost : ∀ c ∈ post.head?, isDigitCh c = false) :
    matchDocNum (m ++ post) = some (m, post) := by
  unfold isDocNumShaped at hm
  simp only [Bool.and_eq_true, Bool.not_eq_true'] at hm
  obtain ⟨htw, hst⟩ := hm
  obtain ⟨s, d, hdecomp, hdne, hdall, hshead, hms⟩ := shapedTail_extend hst
  have happ : m.takeWhile isHangul ++ (m.dropWhile isHangul ++ post) = m ++ post := by
    rw [← List.append_assoc, List.takeWhile_append_dropWhile]
  have hhead : ∀ c ∈ (m.dropWhile isHangul ++ post).head?, isHangul c = false := by
    intro c hc
    rcases shapedTail_head hst with h0 | h0 <;>
    · rcases hdw : m.dropWhile isHangul with _ | ⟨c0, t0⟩
      · rw [hdw] at h0; simp at h0
      · rw [hdw] at h0 hc
        simp only [List.head?_cons, Option.some.injEq] at h0
        simp only [List.cons_append, List.head?_cons, Option.mem_def,
          Option.some.injEq] at hc
        subst hc; rw [h0]; decide
  have hsplit := @takeWhile_append_not isHangul (m.takeWhile isHangul)
      (m.dropWhile isHangul ++ post) List.all_takeWhile hhead
  have hmt : matchTail ('-' :: (d ++ post)) = some ('-' :: d, post) := by
    have hdsplit := @takeWhile_append_not isDigitCh d post hdall hpost
    simp only [matchTail, hdsplit.1, hdsplit.2]
    rw [if_neg]
    rcases d with _ | _
    · exact absurd rfl hdne
    · simp
  have hfinal : m.takeWhile isHangul ++ s ++ '-' :: d = m := by
    rw [List.append_assoc, ← hdecomp]
    exact List.takeWhile_append_dropWhile isHangul m
  simp only [matchDocNum]
  rw [← happ, hsplit.1, hsplit.2, if_neg (by simp [htw]), hms post]
  simp only [hmt, hfinal]

/-- A successful anchored match strictly shrinks the input (used for the
termination of the scanner). -/
theorem matchDocNum_length {l : List Char} {mr : List Char × List Char}
    (h : matchDocNum l = some mr) : mr.2.length < l.length := by
  obtain ⟨happ, hne, -, -⟩ := matchDocNum_spec (show matchDocNum l = some (mr.1, mr.2) from h)
  have := congrArg List.length happ
  rw [List.length_append] at this
  rcases hm : mr.1 with _ | _
  · exact absurd hm hne
  · rw [hm] at this
    simp only [List.length_cons] at this
    omega

/-!
### `re.findall` over the document corpus

`DOC_NUM_PATTERN.findall(content)` returns the list of non-overlapping
matches obtained by trying each start position from the left, resuming
after the end of each match (the single capture group is the whole match).
-/

/-- `DOC_NUM_PATTERN.findall`. -/
def findAll (l : List Char) : List (List Char) :=
  match l with
  | [] => []
  | c :: rest =>
    match hm : matchDocNum (c :: rest) with
    | some mr => mr.1 :: findAll mr.2
    | none => findAll rest
termination_by l.length
decreasing_by
  · exact matchDocNum_length hm
  · simp only [List.length_cons]
    omega

theorem findAll_cons_some {c : Char} {rest : List Char} {mr : List Char × List Char}
    (hm : matchDocNum (c :: rest) = some mr) :
    findAll (c :: rest) = mr.1 :: findAll mr.2 := by
  rw [findAll]
  split
  · rename_i x heq
    rw [heq] at hm
    injection hm with h
    rw [h]
  · rename_i heq
    rw [heq] at hm
    exact absurd hm (by simp)

theorem findAll_cons_none {c : Char} {rest : List Char}
    (hm : matchDocNum (c :: rest) = none) :
    findAll (c :: rest) = findAll rest := by
  rw [findAll]
  split
  · rename_i x heq
    rw [heq] at hm
    exact absurd hm (by simp)
  · rfl

/-- Every reported match is document-number shaped and occurs in the text
at a position that is not immediately followed by a digit. -/
theorem findAll_spec {l : List Char} :
    ∀ m ∈ findAll l, isDocNumShaped m = true ∧
      ∃ pre post, l = pre ++ m ++ post ∧ (∀ c ∈ post.head?, isDigitCh c = false) := by
  induction l using findAll.induct with
  | case1 => simp [findAll]
  | case2 c rest mr hm ih =>
    intro m hmem
    rw [findAll_cons_some hm] at hmem
    obtain ⟨happ, -, hhead, hshape⟩ :=
      matchDocNum_spec (show matchDocNum (c :: rest) = some (mr.1, mr.2) from hm)
    rcases List.mem_cons.mp hmem with heq | htl
    · subst heq
      exact ⟨hshape, [], mr.2, by rw [← happ]; simp, hhead⟩
    · obtain ⟨hsh, pre, post, hdec, hpost⟩ := ih m htl
      refine ⟨hsh, mr.1 ++ pre, post, ?_, hpost⟩
      rw [← happ, hdec]
      simp [List.append_assoc]
  | case3 c rest hm ih =>
    intro m hmem
    rw [findAll_cons_none hm] at hmem
    obtain ⟨hsh, pre, post, hdec, hpost⟩ := ih m hmem
    exact ⟨hsh, c :: pre, post, by rw [hdec]; simp, hpost⟩

/-!
### Identifier extraction (`extract_own_doc_number`, `extract_relations.py`)
-/

/-- The literal header label `문서번호` (document-number label). -/
def labelChars : List Char := ['문', '서', '번', '호']

/-- Continuation of the targeted regex after the literal `문서번호`:
`\s*[:|]?\s*` followed by the document-number pattern; returns the capture
group.  As with the main pattern, the greedy path is the only possible
one: whitespace, `:`/`|` and Hangul are pairwise disjoint classes, so no
backtracking alternative can succeed when the greedy path fails. -/
def sepColon (l : List Char) : List Char :=
  match l with
  | c :: rest => if c = ':' ∨ c = '|' then rest else c :: rest
  | [] => []

/-- The input position after consuming `\s*[:|]?\s*` greedily. -/
def afterSeps (l : List Char) : List Char :=
  (sepColon (l.dropWhile isSpaceCh)).dropWhile isSpaceCh

def matchAfterLabel (l : List Char) : Option (List Char) :=
  match matchDocNum (afterSeps l) with
  | some mr => some mr.1
  | none => none

/-- `re.search(r'문서번호\s*[:|]?\s*([가-힣]+(?:[ ][가-힣]+)*-\d+)', text)`:
try each start position from the left; a successful whole-pattern match
begins with the literal label. -/
def searchLabeled (l : List Char) : Option (List Char) :=
  match l with
  | [] => none
  | c :: rest =>
    if labelChars.isPrefixOf (c :: rest) then
      match matchAfterLabel ((c :: rest).drop 4) with
      | some m => some m
      | none => searchLabeled rest
    else searchLabeled rest

/-- `DOC_NUM_PATTERN.search(text)`: the first match of the plain pattern. -/
def searchDocNum (l : List Char) : Option (List Char) :=
  match l with
  | [] => none
  | c :: rest =>
    match matchDocNum (c :: rest) with
    | some mr => some mr.1
    | none => searchDocNum rest

/-- `extract_own_doc_number` from `extract_relations.py`: the targeted
search for the labelled pattern over `content[:1000]`, then the fallback
plain-pattern search over `content[:500]`, else `None`. -/
def extract_own_doc_number (content : List Char) : Option (List Char) :=
  match searchLabeled (content.take 1000) with
  | some m => some m
  | none => searchDocNum (content.take 500)

/-!
### Citation resolution (`extract_relations`, `extract_relations.py`)
-/

/-- Python `str.strip()` on the character set of `isSpaceCh`. -/
def stripSpaces (l : List Char) : List Char :=
  ((l.dropWhile isSpaceCh).reverse.dropWhile isSpaceCh).reverse

/-- Position of the first occurrence of `needle` in `hay`
(`re.search(re.escape(needle), hay)`). -/
def firstIndexOf (needle hay : List Char) : Option Nat :=
  match hay with
  | [] => if needle.isEmpty then some 0 else none
  | c :: rest =>
    if needle.isPrefixOf (c :: rest) then some 0
    else (firstIndexOf needle rest).map (· + 1)

/-- Context snippet for a match at position `pos` of length `len`:
`content[max(0, pos-50) : min(len(content), pos+len+50)]` with newlines
replaced by spaces, stripped, wrapped in `...` on both sides. -/
def snippetAt (content : List Char) (pos len : Nat) : List Char :=
  let start := pos - 50
  let stop := min content.length (pos + len + 50)
  let raw := (content.drop start).take (stop - start)
  let cleaned := raw.map (fun c => if c = '\n' then ' ' else c)
  '.' :: '.' :: '.' :: (stripSpaces cleaned ++ ['.', '.', '.'])

/-- Snippet around the first occurrence of the cited number in the
content; the empty string when the text is not found
(`extract_relations.py`, lines 92–99). -/
def buildSnippet (cited content : List Char) : List Char :=
  match firstIndexOf cited content with
  | none => []
  | some s => snippetAt content s cited.length

/-- One row of `relations` in `extract_relations.py`. -/
structure CitationEdge where
  source : Nat
  target : Nat
  matchedId : List Char
  snippet : List Char
deriving DecidableEq, Repr

/-- Assoc-list lookup modelling the Python `dict` operations
`k in doc_map` / `doc_map[k]`. -/
def lookupId (m : List (List Char × Nat)) (k : List Char) : Option Nat :=
  match m with
  | [] => none
  | kv :: rest => if kv.1 = k then some kv.2 else lookupId rest k

/-- The loop body of Phase 2 of `extract_relations` for one unique match
`m`: strip it, keep it only when it is a known document number of another
document, and build the edge with its context snippet. -/
def citationEdgeFor (doc_map : List (List Char × Nat)) (source_idx : Nat)
    (content : List Char) (m : List Char) : Option CitationEdge :=
  match lookupId doc_map (stripSpaces m) with
  | none => none
  | some target_idx =>
    if source_idx = target_idx then none
    else some ⟨source_idx, target_idx, stripSpaces m,
      buildSnippet (stripSpaces m) content⟩

/-- Phase 2 of `extract_relations` for one source document: iterate the
unique set of pattern matches (`set(DOC_NUM_PATTERN.findall(content))`),
keep those whose stripped text is a known document number, drop
self-references, and emit one edge per accepted identifier. -/
def citationsForDoc (doc_map : List (List Char × Nat)) (source_idx : Nat)
    (content : List Char) : List CitationEdge :=
  (findAll content).dedup.filterMap (citationEdgeFor doc_map source_idx content)

/-- `extract_relations` (Phase 2).  The documents are given as
(index, content) pairs and the document-number map as an assoc list;
Phase 1 (file reading and map construction) supplies these inputs.
Indices are modelled as naturals (the Python code uses the digit strings
from the file names). -/
def extract_relations (documents : List (Nat × List Char))
    (doc_map : List (List Char × Nat)) : List CitationEdge :=
  documents.flatMap fun ic => citationsForDoc doc_map ic.1 ic.2

/-!
### The CSV-driven pass (`scripts/extract_relations.py`)
-/

/-- Search for `re.escape(target) + r'(?!\d|-)'`: the first position where
`target` occurs and is not immediately followed by a digit or a hyphen. -/
def searchKeyBoundaryPos (target : List Char) (content : List Char) : Option Nat :=
  match content with
  | [] => if target.isEmpty then some 0 else none
  | c :: rest =>
    if target.isPrefixOf (c :: rest) &&
        (match (c :: rest).drop target.length with
         | [] => true
         | d :: _ => !(isDigitCh d || d == '-')) then some 0
    else (searchKeyBoundaryPos target rest).map (· + 1)

/-- One row of `relations` in `scripts/extract_relations.py`. -/
structure ScriptEdge where
  sourceIdx : Nat
  targetIdx : Nat
  citedDocNum : List Char
  citationText : List Char
deriving DecidableEq, Repr

/-- The inner loop of `main` in `scripts/extract_relations.py` (Step 2)
for one parsed file: for each known document number skip self-references,
then emit an edge when the boundary-checked pattern occurs. -/
def scripts_citations (doc_map : List (List Char × Nat)) (source_idx : Nat)
    (content : List Char) : List ScriptEdge :=
  doc_map.filterMap fun tv =>
    if source_idx = tv.2 then none
    else
      match searchKeyBoundaryPos tv.1 content with
      | some pos => some ⟨source_idx, tv.2, tv.1, snippetAt content pos tv.1.length⟩
      | none => none

/-!
### Character and strip lemmas
-/

/-- No entry of `t1` overlaps an entry of `t2`. -/
def rangesDisjoint (t1 t2 : List (Nat × Nat)) : Bool :=
  t1.all (fun p => t2.all (fun q => p.2 < q.1 || q.2 < p.1))

theorem inRanges_disjoint {t1 t2 : List (Nat × Nat)} {n : Nat}
    (hd : rangesDisjoint t1 t2 = true) (h : inRanges t1 n = true) :
    inRanges t2 n = false := by
  unfold inRanges at h
  rw [List.any_eq_true] at h
  obtain ⟨p, hp, hpn⟩ := h
  simp only [Bool.and_eq_true, decide_eq_true_eq] at hpn
  unfold inRanges
  rw [Bool.eq_false_iff]
  intro hcon
  rw [List.any_eq_true] at hcon
  obtain ⟨q, hq, hqn⟩ := hcon
  simp only [Bool.and_eq_true, decide_eq_true_eq] at hqn
  unfold rangesDisjoint at hd
  rw [List.all_eq_true] at hd
  have hall := hd p hp
  rw [List.all_eq_true] at hall
  have := hall q hq
  simp only [Bool.or_eq_true, decide_eq_true_eq] at this
  omega

theorem inRanges_lt {t : List (Nat × Nat)} {n b : Nat}
    (hb : t.all (fun p => decide (p.2 < b)) = true) (h : inRanges t n = true) :
    n < b := by
  unfold inRanges at h
  rw [List.any_eq_true] at h
  obtain ⟨p, hp, hpn⟩ := h
  simp only [Bool.and_eq_true, decide_eq_true_eq] at hpn
  rw [List.all_eq_true] at hb
  have := hb p hp
  simp only [decide_eq_true_eq] at this
  omega

theorem space_not_hangul {c : Char} (h : isSpaceCh c = true) : isHangul c = false := by
  unfold isSpaceCh at h
  have hlt : c.toNat < 0xAC00 := inRanges_lt (by decide) h
  simp only [isHangul, Bool.and_eq_false_iff, decide_eq_false_iff_not]
  left
  omega

theorem space_not_digit {c : Char} (h : isSpaceCh c = true) : isDigitCh c = false := by
  unfold isSpaceCh at h
  unfold isDigitCh
  exact inRanges_disjoint (by decide) h

theorem hangul_not_space {c : Char} (h : isHangul c = true) : isSpaceCh c = false := by
  cases hsp : isSpaceCh c
  · rfl
  · rw [space_not_hangul hsp] at h
    exact absurd h (by simp)

theorem digit_not_space {c : Char} (h : isDigitCh c = true) : isSpaceCh c = false := by
  cases hsp : isSpaceCh c
  · rfl
  · rw [space_not_digit hsp] at h
    exact absurd h (by simp)

theorem dropWhile_eq_self_of_head {α : Type} {p : α → Bool} {l : List α}
    (h : ∀ c ∈ l.head?, p c = false) : l.dropWhile p = l := by
  cases l with
  | nil => rfl
  | cons c rest =>
    have := h c rfl
    simp [List.dropWhile_cons, this]

theorem stripSpaces_eq_self {m : List Char}
    (h1 : ∀ c ∈ m.head?, isSpaceCh c = false)
    (h2 : ∀ c ∈ m.getLast?, isSpaceCh c = false) : stripSpaces m = m := by
  unfold stripSpaces
  rw [dropWhile_eq_self_of_head h1,
    dropWhile_eq_self_of_head (by simpa [List.head?_reverse] using h2)]
  exact List.reverse_reverse m

/-- A document-number-shaped string begins with a Hangul character. -/
theorem shaped_head {m : List Char} (h : isDocNumShaped m = true) :
    ∀ c ∈ m.head?, isHangul c = true := by
  unfold isDocNumShaped at h
  simp only [Bool.and_eq_true, Bool.not_eq_true'] at h
  obtain ⟨htw, -⟩ := h
  cases m with
  | nil => simp at htw
  | cons c rest =>
    intro x hx
    obtain rfl : c = x := by simpa using hx
    cases hc : isHangul c
    · rw [List.takeWhile_cons_of_neg (by simp [hc])] at htw
      simp at htw
    · rfl

/-- A document-number-shaped string ends with a digit. -/
theorem shaped_last {m : List Char} (h : isDocNumShaped m = true) :
    ∀ c ∈ m.getLast?, isDigitCh c = true := by
  unfold isDocNumShaped at h
  simp only [Bool.and_eq_true, Bool.not_eq_true'] at h
  obtain ⟨htw, hst⟩ := h
  obtain ⟨s, d, hdecomp, hdne, hdall, -, -⟩ := shapedTail_extend hst
  rcases List.eq_nil_or_concat d with rfl | ⟨ys, x, rfl⟩
  · exact absurd rfl hdne
  · have hm : m = (m.takeWhile isHangul ++ s ++ '-' :: ys) ++ [x] := by
      calc m = m.takeWhile isHangul ++ m.dropWhile isHangul :=
            (List.takeWhile_append_dropWhile isHangul m).symm
        _ = m.takeWhile isHangul ++ (s ++ '-' :: (ys ++ [x])) := by
            rw [hdecomp]; simp [List.concat_eq_append]
        _ = (m.takeWhile isHangul ++ s ++ '-' :: ys) ++ [x] := by
            simp [List.append_assoc]
    intro c hc
    rw [hm, List.getLast?_concat] at hc
    obtain rfl : x = c := by simpa using hc
    exact (List.all_eq_true.mp hdall) x (by simp)

/-- Stripping is the identity on shaped matches (they start with Hangul
and end with a digit). -/
theorem stripSpaces_shaped {m : List Char} (h : isDocNumShaped m = true) :
    stripSpaces m = m := by
  apply stripSpaces_eq_self
  · intro c hc
    exact hangul_not_space (shaped_head h c hc)
  · intro c hc
    exact digit_not_space (shaped_last h c hc)

/-!
### Edge dissection and uniqueness lemmas
-/

/-- Dissection of the Phase-2 loop body. -/
theorem citationEdgeFor_eq {doc_map : List (List Char × Nat)} {src : Nat}
    {content m : List Char} {e : CitationEdge}
    (h : citationEdgeFor doc_map src content m = some e) :
    e.source = src ∧ e.matchedId = stripSpaces m ∧
      lookupId doc_map (stripSpaces m) = some e.target ∧ src ≠ e.target ∧
      e.snippet = buildSnippet (stripSpaces m) content := by
  unfold citationEdgeFor at h
  split at h
  · exact absurd h (by simp)
  · rename_i tgt hlk
    split at h
    · exact absurd h (by simp)
    · rename_i hne
      injection h with h
      subst h
      exact ⟨rfl, rfl, hlk, hne, rfl⟩

theorem citationsForDoc_source {doc_map : List (List Char × Nat)} {src : Nat}
    {content : List Char} {e : CitationEdge}
    (he : e ∈ citationsForDoc doc_map src content) : e.source = src := by
  unfold citationsForDoc at he
  obtain ⟨m, hm, hfm⟩ := List.mem_filterMap.mp he
  exact (citationEdgeFor_eq hfm).1

/-- Every edge produced by `extract_relations` comes from a unique regex
match in the content of its source document, is a known document number
mapped to its target, and is not a self-reference. -/
theorem extract_relations_mem {documents : List (Nat × List Char)}
    {doc_map : List (List Char × Nat)} {e : CitationEdge}
    (he : e ∈ extract_relations documents doc_map) :
    ∃ ic ∈ documents, e.source = ic.1 ∧ e.matchedId ∈ findAll ic.2 ∧
      isDocNumShaped e.matchedId = true ∧
      lookupId doc_map e.matchedId = some e.target ∧ e.source ≠ e.target := by
  unfold extract_relations at he
  obtain ⟨ic, hic, hmem⟩ := List.mem_flatMap.mp he
  unfold citationsForDoc at hmem
  obtain ⟨m, hm, hfm⟩ := List.mem_filterMap.mp hmem
  have hmf : m ∈ findAll ic.2 := List.mem_dedup.mp hm
  have hsh : isDocNumShaped m = true := (findAll_spec m hmf).1
  have hstrip : stripSpaces m = m := stripSpaces_shaped hsh
  obtain ⟨hsrc, hid, hlk, hne, -⟩ := citationEdgeFor_eq hfm
  rw [hstrip] at hid hlk
  refine ⟨ic, hic, hsrc, ?_, ?_, ?_, ?_⟩
  · rw [hid]; exact hmf
  · rw [hid]; exact hsh
  · rw [hid]; exact hlk
  · rw [hsrc]; exact hne

/-- Within one document, the emitted edges cite pairwise distinct
identifiers: the loop runs over the unique set of matches. -/
theorem citationsForDoc_pairwise (doc_map : List (List Char × Nat)) (src : Nat)
    (content : List Char) :
    (citationsForDoc doc_map src content).Pairwise
      (fun e1 e2 => e1.matchedId ≠ e2.matchedId) := by
  unfold citationsForDoc
  rw [List.pairwise_filterMap]
  have hnd : ((findAll content).dedup).Pairwise (fun a b => a ≠ b) :=
    List.nodup_dedup _
  refine List.Pairwise.imp_of_mem ?_ hnd
  intro a b ha hb hne e1 he1 e2 he2
  have h1 := citationEdgeFor_eq (Option.mem_def.mp he1)
  have h2 := citationEdgeFor_eq (Option.mem_def.mp he2)
  have hsa : stripSpaces a = a :=
    stripSpaces_shaped (findAll_spec a (List.mem_dedup.mp ha)).1
  have hsb : stripSpaces b = b :=
    stripSpaces_shaped (findAll_spec b (List.mem_dedup.mp hb)).1
  rw [h1.2.1, h2.2.1, hsa, hsb]
  exact hne

/-- Across the whole corpus: at most one edge per (source document, cited
identifier) pair, provided the documents map has unique indices (Python
`dict` keys are unique). -/
theorem extract_relations_pairwise {documents : List (Nat × List Char)}
    {doc_map : List (List Char × Nat)}
    (hnd : (documents.map Prod.fst).Nodup) :
    (extract_relations documents doc_map).Pairwise
      (fun e1 e2 => e1.source ≠ e2.source ∨ e1.matchedId ≠ e2.matchedId) := by
  unfold extract_relations
  rw [List.pairwise_flatMap]
  constructor
  · intro ic hic
    exact (citationsForDoc_pairwise doc_map ic.1 ic.2).imp (fun h => Or.inr h)
  · have hp : documents.Pairwise (fun a b => a.1 ≠ b.1) := List.pairwise_map.mp hnd
    refine List.Pairwise.imp_of_mem ?_ hp
    intro a b ha hb hne x hx y hy
    left
    rw [citationsForDoc_source hx, citationsForDoc_source hy]
    exact hne

/-!
### The boundary search of `scripts/extract_relations.py`
-/

/-- A successful boundary search locates an occurrence of the target that
is not immediately followed by a digit or a hyphen (the `(?!\d|-)`
negative lookahead). -/
theorem searchKeyBoundaryPos_spec {t content : List Char} {pos : Nat}
    (h : searchKeyBoundaryPos t content = some pos) :
    ∃ pre post, content = pre ++ t ++ post ∧ pre.length = pos ∧
      ∀ ch ∈ post.head?, isDigitCh ch = false ∧ ch ≠ '-' := by
  induction content generalizing pos with
  | nil =>
    unfold searchKeyBoundaryPos at h
    by_cases ht : t.isEmpty
    · rw [if_pos ht] at h
      injection h with h
      refine ⟨[], [], ?_, h, by simp⟩
      rw [List.isEmpty_iff.mp ht]
      rfl
    · rw [if_neg ht] at h
      exact absurd h (by simp)
  | cons c rest ih =>
    unfold searchKeyBoundaryPos at h
    split at h
    · rename_i hcond
      injection h with h
      simp only [Bool.and_eq_true] at hcond
      obtain ⟨hpre, hbound⟩ := hcond
      obtain ⟨post, hpost⟩ :=
        (List.isPrefixOf_iff_prefix.mp hpre : t <+: c :: rest)
      refine ⟨[], post, by rw [← hpost]; rfl, h, ?_⟩
      have hdrop : (c :: rest).drop t.length = post := by
        rw [← hpost]
        exact List.drop_left t post
      rw [hdrop] at hbound
      intro ch hch
      rcases post with _ | ⟨d, post'⟩
      · simp at hch
      · obtain rfl : d = ch := by simpa using hch
        simp only [Bool.not_eq_true', Bool.or_eq_false_iff] at hbound
        exact ⟨hbound.1, by simpa using hbound.2⟩
    · rename_i hcond
      rcases hrec : searchKeyBoundaryPos t rest with _ | p
      · rw [hrec] at h
        exact absurd h (by simp)
      · rw [hrec] at h
        simp at h
        obtain ⟨pre, post, hdec, hlen, hpost⟩ := ih hrec
        exact ⟨c :: pre, post, by rw [hdec]; rfl,
          by simp only [List.length_cons, hlen]; omega, hpost⟩

/-- Dissection of an edge emitted by the scripts pass: not a
self-reference, and its identifier occurs in the content with the
digit/hyphen boundary satisfied. -/
theorem scripts_citations_mem {doc_map : List (List Char × Nat)} {src : Nat}
    {content : List Char} {e : ScriptEdge}
    (he : e ∈ scripts_citations doc_map src content) :
    e.sourceIdx = src ∧ src ≠ e.targetIdx ∧ (e.citedDocNum, e.targetIdx) ∈ doc_map ∧
      ∃ pre post, content = pre ++ e.citedDocNum ++ post ∧
        ∀ ch ∈ post.head?, isDigitCh ch = false ∧ ch ≠ '-' := by
  unfold scripts_citations at he
  obtain ⟨tv, htv, hfm⟩ := List.mem_filterMap.mp he
  split at hfm
  · exact absurd hfm (by simp)
  · rename_i hne
    split at hfm
    · rename_i pos hpos
      injection hfm with hfm
      subst hfm
      obtain ⟨pre, post, hdec, -, hpost⟩ := searchKeyBoundaryPos_spec hpos
      exact ⟨rfl, hne, htv, pre, post, hdec, hpost⟩
    · exact absurd hfm (by simp)

/-!
### Lemmas about the identifier searches
-/

/-- `afterSeps` only discards a prefix of its input. -/
theorem afterSeps_suffix (l : List Char) : ∃ pre, l = pre ++ afterSeps l := by
  unfold afterSeps
  have h1 : l = l.takeWhile isSpaceCh ++ l.dropWhile isSpaceCh :=
    (List.takeWhile_append_dropWhile isSpaceCh l).symm
  rcases hr : l.dropWhile isSpaceCh with _ | ⟨c, rest⟩
  · exact ⟨l, by simp [sepColon]⟩
  · by_cases hc : c = ':' ∨ c = '|'
    · refine ⟨l.takeWhile isSpaceCh ++ (c :: rest.takeWhile isSpaceCh), ?_⟩
      rw [sepColon, if_pos hc]
      calc l = l.takeWhile isSpaceCh ++ (c :: rest) := by rw [← hr]; exact h1
        _ = l.takeWhile isSpaceCh ++
            (c :: (rest.takeWhile isSpaceCh ++ rest.dropWhile isSpaceCh)) := by
            rw [List.takeWhile_append_dropWhile]
        _ = l.takeWhile isSpaceCh ++ (c :: rest.takeWhile isSpaceCh) ++
            rest.dropWhile isSpaceCh := by simp
    · refine ⟨l.takeWhile isSpaceCh ++ (c :: rest).takeWhile isSpaceCh, ?_⟩
      rw [sepColon, if_neg hc]
      calc l = l.takeWhile isSpaceCh ++ (c :: rest) := by rw [← hr]; exact h1
        _ = l.takeWhile isSpaceCh ++
            ((c :: rest).takeWhile isSpaceCh ++ (c :: rest).dropWhile isSpaceCh) := by
            rw [List.takeWhile_append_dropWhile]
        _ = l.takeWhile isSpaceCh ++ (c :: rest).takeWhile isSpaceCh ++
            (c :: rest).dropWhile isSpaceCh := by simp

/-- A successful targeted continuation yields a shaped substring of the
input. -/
theorem matchAfterLabel_infix {l m : List Char} (h : matchAfterLabel l = some m) :
    isDocNumShaped m = true ∧ ∃ pre post, l = pre ++ m ++ post := by
  unfold matchAfterLabel at h
  rcases hm : matchDocNum (afterSeps l) with _ | mr
  · rw [hm] at h; exact absurd h (by simp)
  · rw [hm] at h
    injection h with h
    obtain ⟨happ, -, -, hsh⟩ :=
      matchDocNum_spec (show matchDocNum (afterSeps l) = some (mr.1, mr.2) from hm)
    obtain ⟨pre, hpre⟩ := afterSeps_suffix l
    subst h
    exact ⟨hsh, pre, mr.2, by rw [hpre, ← happ]; simp [List.append_assoc]⟩

/-- A successful plain search yields a shaped substring of the input. -/
theorem searchDocNum_infix {l m : List Char} (h : searchDocNum l = some m) :
    isDocNumShaped m = true ∧ ∃ pre post, l = pre ++ m ++ post := by
  induction l with
  | nil => simp [searchDocNum] at h
  | cons c rest ih =>
    rw [searchDocNum] at h
    rcases hm : matchDocNum (c :: rest) with _ | mr
    · rw [hm] at h
      obtain ⟨hsh, pre, post, hdec⟩ := ih h
      exact ⟨hsh, c :: pre, post, by rw [hdec]; rfl⟩
    · rw [hm] at h
      injection h with h
      obtain ⟨happ, -, -, hsh⟩ :=
        matchDocNum_spec (show matchDocNum (c :: rest) = some (mr.1, mr.2) from hm)
      subst h
      exact ⟨hsh, [], mr.2, by rw [← happ]; rfl⟩

/-- A successful labelled search yields a shaped substring of the input. -/
theorem searchLabeled_infix {l m : List Char} (h : searchLabeled l = some m) :
    isDocNumShaped m = true ∧ ∃ pre post, l = pre ++ m ++ post := by
  induction l with
  | nil => simp [searchLabeled] at h
  | cons c rest ih =>
    rw [searchLabeled] at h
    split at h
    · rcases hma : matchAfterLabel ((c :: rest).drop 4) with _ | m'
      · rw [hma] at h
        obtain ⟨hsh, pre, post, hdec⟩ := ih h
        exact ⟨hsh, c :: pre, post, by rw [hdec]; rfl⟩
      · rw [hma] at h
        injection h with h
        subst h
        obtain ⟨hsh, pre, post, hdec⟩ := matchAfterLabel_infix hma
        refine ⟨hsh, (c :: rest).take 4 ++ pre, post, ?_⟩
        conv_lhs => rw [← List.take_append_drop 4 (c :: rest)]
        rw [hdec]
        simp [List.append_assoc]
    · obtain ⟨hsh, pre, post, hdec⟩ := ih h
      exact ⟨hsh, c :: pre, post, by rw [hdec]; rfl⟩

/-!
### The labelled header `문서번호: 청년사업담당관-11290`
-/

/-- The identifier of the spec's running example. -/
def c6target : List Char :=
  ['청', '년', '사', '업', '담', '당', '관', '-', '1', '1', '2', '9', '0']

/-- The full header text `문서번호: 청년사업담당관-11290`. -/
def c6payload : List Char := labelChars ++ ':' :: ' ' :: c6target

unseal matchSegs shapedTail in
theorem c6target_shaped : isDocNumShaped c6target = true := by decide

theorem matchAfterLabel_payload {post : List Char}
    (hpost : ∀ c ∈ post.head?, isDigitCh c = false) :
    matchAfterLabel (':' :: ' ' :: (c6target ++ post)) = some c6target := by
  have h1 : afterSeps (':' :: ' ' :: (c6target ++ post)) = c6target ++ post := by
    unfold afterSeps
    rw [List.dropWhile_cons_of_neg (by decide)]
    rw [sepColon, if_pos (Or.inl rfl)]
    rw [List.dropWhile_cons_of_pos (by decide)]
    simp only [c6target, List.cons_append]
    rw [List.dropWhile_cons_of_neg (by decide)]
  unfold matchAfterLabel
  rw [h1, matchDocNum_extend c6target_shaped hpost]

/-- The labelled search succeeds immediately when the text starts with the
header. -/
theorem searchLabeled_payload {post : List Char}
    (hpost : ∀ c ∈ post.head?, isDigitCh c = false) :
    searchLabeled (c6payload ++ post) = some c6target := by
  have hcons : c6payload ++ post
      = '문' :: ('서' :: '번' :: '호' :: ':' :: ' ' :: (c6target ++ post)) := by
    simp [c6payload, labelChars]
  have hpre : labelChars.isPrefixOf
      ('문' :: ('서' :: '번' :: '호' :: ':' :: ' ' :: (c6target ++ post))) = true := by
    apply List.isPrefixOf_iff_prefix.mpr
    exact ⟨':' :: ' ' :: (c6target ++ post), by simp [labelChars]⟩
  rw [hcons, searchLabeled, if_pos hpre]
  have hdrop : ('서' :: '번' :: '호' :: ':' :: ' ' :: (c6target ++ post)).drop 3
      = ':' :: ' ' :: (c6target ++ post) := by simp
  rw [show ('문' :: ('서' :: '번' :: '호' :: ':' :: ' ' :: (c6target ++ post))).drop 4
      = ':' :: ' ' :: (c6target ++ post) from by simp]
  rw [matchAfterLabel_payload hpost]

/-- Scanning a prefix that nowhere contains the label `문서번호` cannot
produce an earlier match: the search reaches the header and returns the
example identifier.  The label cannot straddle the boundary because the
header itself begins with the label. -/
theorem searchLabeled_append_payload {pre : List Char}
    (hnol : ∀ a b : List Char, pre ≠ a ++ labelChars ++ b) {post : List Char}
    (hpost : ∀ c ∈ post.head?, isDigitCh c = false) :
    searchLabeled (pre ++ (c6payload ++ post)) = some c6target := by
  induction pre with
  | nil => simpa using searchLabeled_payload hpost
  | cons c pre' ih =>
    have hnol' : ∀ a b : List Char, pre' ≠ a ++ labelChars ++ b := by
      intro a b hab
      exact hnol (c :: a) b (by rw [hab]; rfl)
    have hnp : ¬ labelChars.isPrefixOf (c :: (pre' ++ (c6payload ++ post))) = true := by
      intro hp
      obtain ⟨tail, htail⟩ := List.isPrefixOf_iff_prefix.mp hp
      rcases pre' with _ | ⟨a, pre2⟩
      · simp [labelChars, c6payload, List.cons.injEq] at htail
      · rcases pre2 with _ | ⟨b, pre3⟩
        · simp [labelChars, c6payload, List.cons.injEq] at htail
        · rcases pre3 with _ | ⟨d, rest'⟩
          · simp [labelChars, c6payload, List.cons.injEq] at htail
          · simp only [labelChars, List.cons_append, List.cons.injEq] at htail
            obtain ⟨e1, e2, e3, e4, -⟩ := htail
            exact hnol [] rest' (by
              simp only [labelChars, List.nil_append, List.cons_append]
              rw [← e1, ← e2, ← e3, ← e4])
    rw [List.cons_append, searchLabeled, if_neg hnp]
    exact ih hnol'

/-- A text without Hangul characters has no document-number-shaped
substring. -/
theorem no_hangul_not_shaped {l : List Char} (hl : ∀ c ∈ l, isHangul c = false) :
    ∀ pre mid post : List Char, l = pre ++ mid ++ post → isDocNumShaped mid = false := by
  intro pre mid post hdec
  cases hs : isDocNumShaped mid
  · rfl
  · exfalso
    rcases mid with _ | ⟨c, rest⟩
    · simp [isDocNumShaped] at hs
    · have hh : isHangul c = true := shaped_head hs c rfl
      have hmem : c ∈ l := by
        rw [hdec]; simp
      rw [hl c hmem] at hh
      exact absurd hh (by simp)

/-- The first 1000 characters split as the first 500 plus the next 500. -/
theorem take1000_split (content : List Char) :
    content.take 1000 = content.take 500 ++ (content.drop 500).take 500 := by
  rw [show (1000 : Nat) = 500 + 500 from rfl, List.take_add]

/-!
### Claim theorems for the Identifier Extractor and Citation Resolver
-/

/-- C1: for every corpus (documents as an index-to-content map with unique
indices, and `ownIds` as a DocumentNumber-to-index map), `resolveCitations`
(`extract_relations`) emits at most one citation edge per unique cited
identifier per source document (it scans the unique set of pattern matches
in each document), emits no edge whose source and target index are equal,
and emits no edge whose matched identifier is not a key of `ownIds` (every
edge's identifier looks up to exactly its target). -/
theorem claimC1 (documents : List (Nat × List Char))
    (doc_map : List (List Char × Nat))
    (hnd : (documents.map Prod.fst).Nodup) :
    (extract_relations documents doc_map).Pairwise
        (fun e1 e2 => e1.source ≠ e2.source ∨ e1.matchedId ≠ e2.matchedId) ∧
      (∀ e ∈ extract_relations documents doc_map, e.source ≠ e.target) ∧
      (∀ e ∈ extract_relations documents doc_map,
        lookupId doc_map e.matchedId = some e.target) := by
  refine ⟨extract_relations_pairwise hnd, ?_, ?_⟩
  · intro e he
    obtain ⟨ic, hic, hsrc, hmf, hsh, hlk, hne⟩ := extract_relations_mem he
    exact hne
  · intro e he
    obtain ⟨ic, hic, hsrc, hmf, hsh, hlk, hne⟩ := extract_relations_mem he
    exact hlk

def c1doc1 : List Char := "앞글 (청년사업담당관-100) 그리고\n더".toList

def c1doc2 : List Char := "문서번호: 청년사업담당관-100 자기 내용".toList

def c1docs : List (Nat × List Char) := [(1, c1doc1), (2, c1doc2)]

def c1map : List (List Char × Nat) := [("청년사업담당관-100".toList, 2)]

/-- Witness for C1 on the spec's two-document example corpus. -/
theorem claimC1_witness :
    (extract_relations c1docs c1map).Pairwise
        (fun e1 e2 => e1.source ≠ e2.source ∨ e1.matchedId ≠ e2.matchedId) ∧
      (∀ e ∈ extract_relations c1docs c1map, e.source ≠ e.target) ∧
      (∀ e ∈ extract_relations c1docs c1map,
        lookupId c1map e.matchedId = some e.target) :=
  claimC1 c1docs c1map (by decide)

/-- C2: a candidate citation match immediately followed by a digit or a
hyphen is rejected.  In `scripts/extract_relations.py` every emitted edge
comes from an occurrence of the cited identifier that is followed by
neither a digit nor a hyphen (the `(?!\d|-)` lookahead); in
`extract_relations.py` every emitted edge comes from an occurrence of the
matched identifier that is not followed by a digit (the greedy `\d+`
consumes every trailing digit), so a document containing only
`청년사업담당관-67890` never yields an edge for the key `청년사업담당관-678`. -/
theorem claimC2 :
    (∀ (doc_map : List (List Char × Nat)) (src : Nat) (content : List Char)
        (e : ScriptEdge), e ∈ scripts_citations doc_map src content →
        ∃ pre post, content = pre ++ e.citedDocNum ++ post ∧
          ∀ ch ∈ post.head?, isDigitCh ch = false ∧ ch ≠ '-') ∧
    (∀ (documents : List (Nat × List Char)) (doc_map : List (List Char × Nat))
        (e : CitationEdge), e ∈ extract_relations documents doc_map →
        ∃ ic ∈ documents, e.source = ic.1 ∧ ∃ pre post,
          ic.2 = pre ++ e.matchedId ++ post ∧
          ∀ ch ∈ post.head?, isDigitCh ch = false) := by
  constructor
  · intro dm src content e he
    obtain ⟨-, -, -, pre, post, hdec, hpost⟩ := scripts_citations_mem he
    exact ⟨pre, post, hdec, hpost⟩
  · intro docs dm e he
    obtain ⟨ic, hic, hsrc, hmf, -, -, -⟩ := extract_relations_mem he
    obtain ⟨-, pre, post, hdec, hpost⟩ := findAll_spec _ hmf
    exact ⟨ic, hic, hsrc, pre, post, hdec, hpost⟩

def c2key : List Char := "청년사업담당관-678".toList

def c2snip : List Char := '.' :: '.' :: '.' :: (c2key ++ ['.', '.', '.'])

unseal matchSegs findAll in
/-- Witness for C2 on a single-document corpus whose content is exactly
the cited identifier. -/
theorem claimC2_witness :
    (∃ pre post, c2key = pre ++
        (⟨1, 2, c2key, c2snip⟩ : ScriptEdge).citedDocNum ++ post ∧
        ∀ ch ∈ post.head?, isDigitCh ch = false ∧ ch ≠ '-') ∧
    (∃ ic ∈ [(1, c2key)], (⟨1, 2, c2key, c2snip⟩ : CitationEdge).source = ic.1 ∧
        ∃ pre post, ic.2 = pre ++
          (⟨1, 2, c2key, c2snip⟩ : CitationEdge).matchedId ++ post ∧
        ∀ ch ∈ post.head?, isDigitCh ch = false) :=
  ⟨claimC2.1 [(c2key, 2)] 1 c2key ⟨1, 2, c2key, c2snip⟩ (by decide),
   claimC2.2 [(1, c2key)] [(c2key, 2)] ⟨1, 2, c2key, c2snip⟩ (by decide)⟩

/-- C3: `extractOwnId` first attempts the targeted labelled match on the
first 1000 characters; if that fails it runs the unanchored pattern search
on the first 500 characters; and on every text with no
document-number-shaped substring in the first 1000 characters it returns
`none` (a total function — no exception). -/
theorem claimC3 (content : List Char) :
    (∀ m, searchLabeled (content.take 1000) = some m →
        extract_own_doc_number content = some m) ∧
      (searchLabeled (content.take 1000) = none →
        extract_own_doc_number content = searchDocNum (content.take 500)) ∧
      ((∀ pre mid post : List Char, content.take 1000 = pre ++ mid ++ post →
          isDocNumShaped mid = false) →
        extract_own_doc_number content = none) := by
  refine ⟨?_, ?_, ?_⟩
  · intro m hm
    unfold extract_own_doc_number
    rw [hm]
  · intro hm
    unfold extract_own_doc_number
    rw [hm]
  · intro hno
    have hlab : searchLabeled (content.take 1000) = none := by
      rcases hsl : searchLabeled (content.take 1000) with _ | m
      · rfl
      · obtain ⟨hsh, pre, post, hdec⟩ := searchLabeled_infix hsl
        rw [hno pre m post hdec] at hsh
        exact absurd hsh (by simp)
    have hdoc : searchDocNum (content.take 500) = none := by
      rcases hsd : searchDocNum (content.take 500) with _ | m
      · rfl
      · obtain ⟨hsh, pre, post, hdec⟩ := searchDocNum_infix hsd
        have h1000 : content.take 1000
            = pre ++ m ++ (post ++ (content.drop 500).take 500) := by
          rw [take1000_split content, hdec]
          simp [List.append_assoc]
        rw [hno pre m (post ++ (content.drop 500).take 500) h1000] at hsh
        exact absurd hsh (by simp)
    unfold extract_own_doc_number
    rw [hlab, hdoc]

unseal matchSegs in
/-- Witness for C3: a labelled text, an unlabelled text, and a text with
no identifier at all. -/
theorem claimC3_witness :
    extract_own_doc_number "문서번호: 가나-12".toList = some "가나-12".toList ∧
      extract_own_doc_number "가나-12".toList
        = searchDocNum ("가나-12".toList.take 500) ∧
      extract_own_doc_number "hello".toList = none :=
  ⟨(claimC3 _).1 _ (by decide),
   (claimC3 _).2.1 (by decide),
   (claimC3 _).2.2 (no_hangul_not_shaped (by decide))⟩

/-- C7: `resolveCitations` is deterministic in its edge set — re-running
it on unchanged input yields the identical edge list, and (for a documents
map with unique indices) the list contains no duplicate edges. -/
theorem claimC7 (documents : List (Nat × List Char))
    (doc_map : List (List Char × Nat))
    (hnd : (documents.map Prod.fst).Nodup) :
    extract_relations documents doc_map = extract_relations documents doc_map ∧
      (extract_relations documents doc_map).Nodup := by
  refine ⟨rfl, ?_⟩
  refine (extract_relations_pairwise hnd).imp ?_
  intro a b hab heq
  rcases hab with h | h
  · exact h (by rw [heq])
  · exact h (by rw [heq])

/-- Witness for C7 on the spec's two-document example corpus. -/
theorem claimC7_witness :
    extract_relations c1docs c1map = extract_relations c1docs c1map ∧
      (extract_relations c1docs c1map).Nodup :=
  claimC7 c1docs c1map (by decide)

/-- C6 (amended): the original claim quantified over every text containing
`문서번호: 청년사업담당관-11290` in its first 200 characters; the code
returns a different identifier when an earlier `문서번호` label match
exists or when the occurrence is immediately followed by another digit, so
those two escapes are excluded here. -/
theorem claimC6 (pre post : List Char)
    (hlen : pre.length ≤ 181)
    (hnol : ∀ a b : List Char, pre ≠ a ++ labelChars ++ b)
    (hpost : ∀ c ∈ post.head?, isDigitCh c = false) :
    extract_own_doc_number (pre ++ (c6payload ++ post)) = some c6target := by
  have hk : 19 ≤ 1000 - pre.length := by omega
  have hsplit : (pre ++ (c6payload ++ post)).take 1000
      = pre ++ (c6payload ++ post.take (1000 - pre.length - 19)) := by
    rw [List.take_append_eq_append_take,
      List.take_of_length_le (by omega : pre.length ≤ 1000),
      List.take_append_eq_append_take,
      List.take_of_length_le
        (by simp [c6payload, labelChars, c6target]; omega
          : c6payload.length ≤ 1000 - pre.length)]
    have : 1000 - pre.length - c6payload.length = 1000 - pre.length - 19 := by
      simp [c6payload, labelChars, c6target]
    rw [this]
  have hpost' : ∀ c ∈ (post.take (1000 - pre.length - 19)).head?, isDigitCh c = false := by
    intro c hc
    rw [List.head?_take, if_neg (by omega : ¬(1000 - pre.length - 19 = 0))] at hc
    exact hpost c hc
  unfold extract_own_doc_number
  rw [hsplit, searchLabeled_append_payload hnol hpost']

def c6textA : List Char := c6payload ++ ['3']

def c6preB : List Char := "문서번호: 가나-7 ".toList

def c6textB : List Char := c6preB ++ c6payload

unseal matchSegs in
/-- Counterexample to C6 as originally stated: both texts contain
`문서번호: 청년사업담당관-11290` within their first 200 characters, yet
`extractOwnId` does not return `청년사업담당관-11290` — in the first the
occurrence is followed by a further digit (the greedy `\d+` extends the
match to `청년사업담당관-112903`), in the second an earlier `문서번호`
label match wins (`가나-7`). -/
theorem claimC6_counterexample :
    (c6textA.take 200 = [] ++ c6payload ++ ['3'] ∧
      extract_own_doc_number c6textA ≠ some c6target) ∧
    (c6textB.take 200 = c6preB ++ c6payload ++ [] ∧
      extract_own_doc_number c6textB ≠ some c6target) :=
  ⟨⟨by decide, by decide⟩, ⟨by decide, by decide⟩⟩

/-- Witness for the amended C6. -/
theorem claimC6_witness :
    extract_own_doc_number ([] ++ (c6payload ++ " 본문".toList)) = some c6target :=
  claimC6 [] " 본문".toList (by decide)
    (by
      intro a b h
      have hlenEq := congrArg List.length h
      simp [labelChars] at hlenEq
      omega)
    (by
      intro c hc
      rw [show (" 본문".toList).head? = some ' ' from rfl] at hc
      injection hc with h
      subst h
      rfl)

/-!
### The retrieval engine (`graph_db/api_server_real.py`)

External collaborators (graph store, the two vector indexes, the two
language-model calls) are modelled as `Except`-returning functions; a
`.error` is a raised exception at the call site.  Uncaught exceptions
propagate through the `do`-blocks exactly as they propagate out of the
Python functions.  The vector-index handles are assumed initialised (the
`503` guard for missing handles is an HTTP concern outside these claims);
row ordering and limits (`ORDER BY sim_score DESC LIMIT 5`) are the
store's responsibility and are part of the returned row lists.
-/

/-- One row returned by the Cypher query of `get_complaint_context`. -/
structure ComplaintRow where
  complaint_node_id : Option Int
  doc_title : Option String
  doc_id : Option String
  doc_node_id : Option Int
  author_name : Option String
  author_node_id : Option Int
  sim_score : Option ℚ
deriving Repr

/-- One element of the `collect(DISTINCT {...}) as citations` aggregate. -/
structure CitationRef where
  title : Option String
  doc_id : Option String
  neo4j_id : Option Int
deriving Repr

/-- One row returned by the Cypher query of `get_document_context`. -/
structure DocRow where
  doc_node_id : Option Int
  author : Option String
  author_node_id : Option Int
  dept : Option String
  dept_node_id : Option Int
  citations : List CitationRef
deriving Repr

/-- The graph store handle (`state.graph`): each field runs one Cypher
query; `.error` models a raised driver exception. -/
structure GraphStore where
  complaintRows : Int → Except String (List ComplaintRow)
  docRows : String → Except String (List DocRow)

/-- Python truthiness of an optional string (`None` and `""` are falsy). -/
def truthyS : Option String → Bool
  | some s => !(s == "")
  | none => false

/-- Python truthiness of an optional node id (`None` and `0` are falsy). -/
def truthyI : Option Int → Bool
  | some v => !(v == 0)
  | none => false

/-- Python f-string of an optional value (`None` prints as `"None"`). -/
def optStr : Option String → String
  | some s => s
  | none => "None"

structure RelatedDoc where
  doc_id : Option String
  title : Option String
  neo4j_id : Option Int
  author : Option String
  author_node_id : Option Int
  similarity : Option ℚ
deriving Repr

structure ComplaintContext where
  context_text : String
  neo4j_id : Option Int
  related_documents : List RelatedDoc
deriving Repr

def complaintLine (r : ComplaintRow) : String :=
  "  - " ++ optStr r.doc_title ++ " (ID: " ++ optStr r.doc_id ++ ") / 담당자: "
    ++ optStr r.author_name

/-- `get_complaint_context` from `api_server_real.py`: a missing graph
handle yields the empty context; a raised query propagates; otherwise the
rows with a truthy `doc_title` produce the context lines and related-doc
records, and `complaint_node_id` is the first non-null value seen. -/
def get_complaint_context (graph : Option GraphStore) (id : Int) :
    Except String ComplaintContext :=
  match graph with
  | none => .ok ⟨"", none, []⟩
  | some g => do
    let rows ← g.complaintRows id
    let kept := rows.filter (fun r => truthyS r.doc_title)
    let context_lines := "  [Related Public Documents & Authors]" :: kept.map complaintLine
    let related_docs := kept.map (fun r =>
      (⟨r.doc_id, r.doc_title, r.doc_node_id, r.author_name, r.author_node_id,
        r.sim_score⟩ : RelatedDoc))
    return ⟨if context_lines.length > 1 then String.intercalate "\n" context_lines else "",
      rows.findSome? (fun r => r.complaint_node_id), related_docs⟩

structure DocMeta where
  author : Option String
  author_node_id : Option Int
  department : Option String
  department_node_id : Option Int
  citations : List CitationRef
deriving Repr

/-- Context for one document hit; `metadata = none` models the literal
empty dict `{}` returned when the document is unknown. -/
structure DocContext where
  context_text : String
  neo4j_id : Option Int
  metadata : Option DocMeta
deriving Repr

/-- `get_document_context` from `api_server_real.py`. -/
def get_document_context (graph : Option GraphStore) (id : String) :
    Except String DocContext :=
  match graph with
  | none => .ok ⟨"", none, none⟩
  | some g => do
    let rows ← g.docRows id
    match rows with
    | [] => return ⟨"", none, none⟩
    | row :: _ =>
      let meta : DocMeta :=
        ⟨row.author, row.author_node_id, row.dept, row.dept_node_id, row.citations⟩
      let author_lines : List String :=
        if truthyS meta.author then
          ["  - Author: " ++ optStr meta.author ++
            (if truthyS meta.department then " (" ++ optStr meta.department ++ ")" else "")]
        else []
      let cited_titles := (meta.citations.filter (fun c => truthyS c.title)).map
        (fun c => optStr c.title)
      let citation_lines : List String :=
        if !meta.citations.isEmpty && !cited_titles.isEmpty then
          ["  - Citations: " ++ String.intercalate ", " (cited_titles.take 3)]
        else []
      let context_lines := "  [Metadata]" :: (author_lines ++ citation_lines)
      return ⟨if context_lines.length > 1 then String.intercalate "\n" context_lines else "",
        row.doc_node_id, some meta⟩

/-- A complaint vector hit (`metadata["index"]` is present by
construction of the complaint index). -/
structure CHit where
  page_content : String
  index : Int
deriving Repr

/-- A document vector hit. -/
structure DHit where
  page_content : String
  doc_id : String
  title : String
deriving Repr

/-- The collaborator handles used by `/api/search`. -/
structure Env where
  hydeGen : String → Except String String
  answerGen : String → String → Except String String
  complaintSearch : String → Nat → Except String (List CHit)
  docSearch : String → Nat → Except String (List DHit)
  graph : Option GraphStore

structure Source where
  type : String
  title : String
  id : String
deriving Repr

structure ComplaintCtxOut where
  id : Int
  neo4j_id : Option Int
  snippet : String
  related_documents : List RelatedDoc
deriving Repr

structure DocCtxOut where
  id : String
  neo4j_id : Option Int
  title : String
  snippet : String
  metadata : Option DocMeta
deriving Repr

structure StdComplaint where
  id : Int
  snippet : String
deriving Repr

structure StdDoc where
  id : String
  title : String
  snippet : String
deriving Repr

/-- The `standard_*` fields attached by the A/B-comparison branch. -/
structure StdResult where
  answer : String
  sources : List Source
  complaints : List StdComplaint
  documents : List StdDoc
deriving Repr

structure SearchResponse where
  answer : String
  sources : List Source
  complaints : List ComplaintCtxOut
  documents : List DocCtxOut
  highlighted_nodes : List Int
  search_method : String
  hypothetical_document : Option String
  standard : Option StdResult
deriving Repr

/-- Insertion into the Python `set` of highlighted node ids (a set holds
no duplicates; iteration order is not observable in any claim, so the set
is modelled as a duplicate-free list in first-insertion order). -/
def addNode (l : List Int) (x : Int) : List Int :=
  if x ∈ l then l else l ++ [x]

/-- `if <optional id>: highlighted_nodes.add(<id>)` (Python truthiness:
`None` and `0` are skipped). -/
def addTruthy (l : List Int) (x : Option Int) : List Int :=
  match x with
  | some v => if v = 0 then l else addNode l v
  | none => l

/-- Mutable state threaded through the two hit-processing loops. -/
structure LoopAcc where
  combined : String
  sources : List Source
  complaintsOut : List ComplaintCtxOut
  documentsOut : List DocCtxOut
  highlighted : List Int
deriving Repr

/-- One iteration of the complaint-hit loop of `search`. -/
def complaintStep (graph : Option GraphStore) (acc : LoopAcc) (hit : CHit) :
    Except String LoopAcc := do
  let cd ← get_complaint_context graph hit.index
  let snippet := hit.page_content.take 300
  let hl := addTruthy acc.highlighted cd.neo4j_id
  let hl := cd.related_documents.foldl
    (fun h rd => addTruthy (addTruthy h rd.neo4j_id) rd.author_node_id) hl
  return ⟨acc.combined ++ "[Complaint]: " ++ snippet ++ "\n" ++ cd.context_text ++ "\n---\n",
    acc.sources ++ [⟨"Complaint", snippet, toString hit.index⟩],
    acc.complaintsOut ++ [⟨hit.index, cd.neo4j_id, snippet, cd.related_documents⟩],
    acc.documentsOut,
    hl⟩

/-- One iteration of the document-hit loop of `search`. -/
def docStep (graph : Option GraphStore) (acc : LoopAcc) (hit : DHit) :
    Except String LoopAcc := do
  let cd ← get_document_context graph hit.doc_id
  let snippet := hit.page_content.take 300
  let hl := addTruthy acc.highlighted cd.neo4j_id
  let hl := match cd.metadata with
    | some meta =>
      let h1 := addTruthy (addTruthy hl meta.author_node_id) meta.department_node_id
      meta.citations.foldl (fun h c => addTruthy h c.neo4j_id) h1
    | none => hl
  return ⟨acc.combined ++ "[Document]: " ++ hit.title ++ "\nContent: " ++ snippet
      ++ "\n" ++ cd.context_text ++ "\n---\n",
    acc.sources ++ [⟨"Document", hit.title, hit.doc_id⟩],
    acc.complaintsOut,
    acc.documentsOut ++ [⟨hit.doc_id, cd.neo4j_id, hit.title, snippet, cd.metadata⟩],
    hl⟩

/-- The HyDE step of `search`: on generator failure the raw question is
kept and no hypothetical document is recorded. -/
def hydeStep (gen : String → Except String String) (q : String) (use_hyde : Bool) :
    String × Option String :=
  if use_hyde then
    match gen q with
    | .ok h => (h, some h)
    | .error _ => (q, none)
  else (q, none)

/-- The standard-search comparison run of the A/B branch. -/
def stdSearch (env : Env) (q : String) : Except String StdResult := do
  let c_docs ← env.complaintSearch q 2
  let d_docs ← env.docSearch q 2
  let answer ← env.answerGen
    (String.join (c_docs.map (fun doc =>
        "[Complaint]: " ++ doc.page_content.take 500 ++ "\n---\n")) ++
      String.join (d_docs.map (fun doc =>
        "[Document]: " ++ doc.title ++ "\nContent: " ++ doc.page_content.take 500 ++ "\n---\n")))
    q
  return ⟨answer,
    c_docs.map (fun doc =>
      (⟨"Complaint", doc.page_content.take 150, toString doc.index⟩ : Source)) ++
    d_docs.map (fun doc =>
      (⟨"Document", if doc.title == "" then doc.page_content.take 150 else doc.title,
        doc.doc_id⟩ : Source)),
    c_docs.map (fun doc => (⟨doc.index, doc.page_content.take 500⟩ : StdComplaint)),
    d_docs.map (fun doc => (⟨doc.doc_id, doc.title, doc.page_content.take 500⟩ : StdDoc))⟩

/-- The body of `/api/search` after the HyDE step: vector searches,
per-hit graph expansion, answer generation, and the A/B branch (whose
failure is caught and merely omits the `standard_*` fields). -/
def searchCore (env : Env) (query search_query : String) (hypo : Option String)
    (use_hyde : Bool) : Except String SearchResponse := do
  let c_docs ← env.complaintSearch search_query 2
  let d_docs ← env.docSearch search_query 2
  let acc1 ← c_docs.foldlM (complaintStep env.graph) (⟨"", [], [], [], []⟩ : LoopAcc)
  let acc2 ← d_docs.foldlM (docStep env.graph) acc1
  let answer ← env.answerGen acc2.combined query
  return ⟨answer, acc2.sources, acc2.complaintsOut, acc2.documentsOut,
    acc2.highlighted,
    if use_hyde then "HyDE" else "Standard",
    hypo,
    if use_hyde then
      match stdSearch env query with
      | .ok s => some s
      | .error _ => none
    else none⟩

/-- `/api/search` from `api_server_real.py`. -/
def searchReal (env : Env) (query : String) (use_hyde : Bool) :
    Except String SearchResponse :=
  searchCore env query (hydeStep env.hydeGen query use_hyde).1
    (hydeStep env.hydeGen query use_hyde).2 use_hyde

/-!
### The legacy server (`graph_db/api_server.py`)
-/

structure LegacyRow where
  author_name : Option String
  author_role : Option String
  mentions : List String
deriving Repr

structure LegacyStore where
  query : String → Except String (List LegacyRow)

/-- `get_expanded_context` from `api_server.py`: the Cypher call sits in a
`try/except` that converts any store-level error into the empty string. -/
def get_expanded_context (graph : Option LegacyStore) (title : String) : String :=
  match graph with
  | none => ""
  | some g =>
    match g.query title with
    | .error _ => ""
    | .ok [] => ""
    | .ok (record :: _) =>
      let s1 := "  [Graph Metadata]\n"
      let s2 := if truthyS record.author_name then
          s1 ++ "  - Author: " ++ optStr record.author_name ++ " ("
            ++ optStr record.author_role ++ ")\n"
        else s1
      if !record.mentions.isEmpty then
        s2 ++ "  - Mentions: " ++ String.intercalate ", " record.mentions ++ "\n"
      else s2

/-!
### RELATED_TO ingestion (`graph_db/302_add_complaints_node.py`)

Similarity scores are floats compared only against the constant `0.5`;
they are modelled as rationals.
-/

structure RelEdge where
  complaint : Nat
  doc : Nat
  score : ℚ
deriving DecidableEq, Repr

/-- `MERGE (c)-[r:RELATED_TO]->(sim_doc) SET r.score = score` for one
yielded row: update the edge's score when it exists, create it otherwise. -/
def upsertEdge (edges : List RelEdge) (c d : Nat) (s : ℚ) : List RelEdge :=
  if edges.any (fun e => e.complaint == c && e.doc == d) then
    edges.map (fun e => if e.complaint = c ∧ e.doc = d then ⟨c, d, s⟩ else e)
  else edges ++ [⟨c, d, s⟩]

/-- The linking query of `add_complaints`: for each complaint the vector
index yields up to five (document, score) rows; rows with `score > 0.5`
are merged as RELATED_TO edges carrying the score.  Ingestion starts from
a graph without RELATED_TO edges. -/
def add_complaints_link (sims : Nat → List (Nat × ℚ)) (complaints : List Nat) :
    List RelEdge :=
  complaints.foldl
    (fun edges c =>
      ((sims c).filter (fun p => (1 : ℚ)/2 < p.2)).foldl
        (fun es p => upsertEdge es c p.1 p.2) edges)
    []

/-- `Except` success as a Boolean (for concrete evaluation). -/
def isOkE {α : Type} : Except String α → Bool
  | .ok _ => true
  | .error _ => false

/-!
### Monadic plumbing lemmas
-/

theorem bind_ok {ε α β : Type} {x : Except ε α} {f : α → Except ε β} {b : β}
    (h : x >>= f = .ok b) : ∃ a, x = .ok a ∧ f a = .ok b := by
  rcases x with e | a
  · simp [Bind.bind, Except.bind] at h
  · exact ⟨a, rfl, by simpa [Bind.bind, Except.bind] using h⟩

theorem isOkE_exists {α : Type} {x : Except String α} (h : isOkE x = true) :
    ∃ a, x = .ok a := by
  rcases x with e | a
  · simp [isOkE] at h
  · exact ⟨a, rfl⟩

theorem isOkE_bind {α β : Type} {x : Except String α} {f : α → Except String β}
    (hx : ∃ a, x = .ok a) (hf : ∀ a, isOkE (f a) = true) : isOkE (x >>= f) = true := by
  obtain ⟨a, ha⟩ := hx
  rw [ha]
  simpa [Bind.bind, Except.bind] using hf a

theorem foldlM_ok_pre {α β : Type} {step : β → α → Except String β} {P : β → Prop}
    (hstep : ∀ acc a acc', step acc a = .ok acc' → P acc → P acc') :
    ∀ (l : List α) (acc acc' : β), l.foldlM step acc = .ok acc' → P acc → P acc' := by
  intro l
  induction l with
  | nil =>
    intro acc acc' h hp
    have : acc = acc' := by simpa [List.foldlM, pure, Except.pure] using h
    rw [← this]
    exact hp
  | cons a l ih =>
    intro acc acc' h hp
    rw [List.foldlM_cons] at h
    obtain ⟨acc1, h1, h2⟩ := bind_ok h
    exact ih acc1 acc' h2 (hstep acc a acc1 h1 hp)

theorem foldlM_total {α β : Type} {step : β → α → Except String β}
    (hstep : ∀ acc a, ∃ acc', step acc a = .ok acc') :
    ∀ (l : List α) (acc : β), ∃ acc', l.foldlM step acc = .ok acc' := by
  intro l
  induction l with
  | nil => intro acc; exact ⟨acc, rfl⟩
  | cons a l ih =>
    intro acc
    obtain ⟨acc1, h1⟩ := hstep acc a
    obtain ⟨acc', h'⟩ := ih acc1
    exact ⟨acc', by rw [List.foldlM_cons, h1]; simpa [Bind.bind, Except.bind] using h'⟩

/-- Dissection of a successful `searchCore` run. -/
theorem searchCore_ok {env : Env} {query sq : String} {hypo : Option String}
    {uh : Bool} {r : SearchResponse} (h : searchCore env query sq hypo uh = .ok r) :
    ∃ c_docs d_docs acc1 acc2 answer,
      env.complaintSearch sq 2 = .ok c_docs ∧
      env.docSearch sq 2 = .ok d_docs ∧
      c_docs.foldlM (complaintStep env.graph) (⟨"", [], [], [], []⟩ : LoopAcc) = .ok acc1 ∧
      d_docs.foldlM (docStep env.graph) acc1 = .ok acc2 ∧
      env.answerGen acc2.combined query = .ok answer ∧
      r = ⟨answer, acc2.sources, acc2.complaintsOut, acc2.documentsOut, acc2.highlighted,
        if uh then "HyDE" else "Standard", hypo,
        if uh then
          match stdSearch env query with
          | .ok s => some s
          | .error _ => none
        else none⟩ := by
  unfold searchCore at h
  obtain ⟨c_docs, h1, h⟩ := bind_ok h
  obtain ⟨d_docs, h2, h⟩ := bind_ok h
  obtain ⟨acc1, h3, h⟩ := bind_ok h
  obtain ⟨acc2, h4, h⟩ := bind_ok h
  obtain ⟨answer, h5, h⟩ := bind_ok h
  refine ⟨c_docs, d_docs, acc1, acc2, answer, h1, h2, h3, h4, h5, ?_⟩
  have h' : @Except.ok String _ (SearchResponse.mk answer acc2.sources
      acc2.complaintsOut acc2.documentsOut acc2.highlighted
      (if uh then "HyDE" else "Standard") hypo
      (if uh then
        match stdSearch env query with
        | .ok s => some s
        | .error _ => none
      else none)) = .ok r := h
  injection h' with h'
  exact h'.symm

/-!
### Duplicate-freeness of the highlighted node set
-/

theorem addNode_nodup {l : List Int} {x : Int} (h : l.Nodup) : (addNode l x).Nodup := by
  unfold addNode
  split
  · exact h
  · rename_i hx
    refine List.Nodup.append h (List.nodup_singleton x) ?_
    intro a ha hb
    simp only [List.mem_singleton] at hb
    subst hb
    exact hx ha

theorem addTruthy_nodup {l : List Int} {x : Option Int} (h : l.Nodup) :
    (addTruthy l x).Nodup := by
  unfold addTruthy
  rcases x with _ | v
  · exact h
  · show (if v = 0 then l else addNode l v).Nodup
    by_cases hv : v = 0
    · rw [if_pos hv]
      exact h
    · rw [if_neg hv]
      exact addNode_nodup h

theorem foldl_addTruthy_nodup {β : Type} {step : List Int → β → List Int}
    (hstep : ∀ acc b, acc.Nodup → (step acc b).Nodup) :
    ∀ (l : List β) (acc : List Int), acc.Nodup → (l.foldl step acc).Nodup := by
  intro l
  induction l with
  | nil => intro acc h; exact h
  | cons b l ih => intro acc h; exact ih (step acc b) (hstep acc b h)

theorem complaintStep_nodup {graph : Option GraphStore} {acc : LoopAcc} {hit : CHit}
    {acc' : LoopAcc} (h : complaintStep graph acc hit = .ok acc')
    (hn : acc.highlighted.Nodup) : acc'.highlighted.Nodup := by
  unfold complaintStep at h
  obtain ⟨cd, h1, h2⟩ := bind_ok h
  have h2' : @Except.ok String _ (LoopAcc.mk
      (acc.combined ++ "[Complaint]: " ++ hit.page_content.take 300 ++ "\n"
        ++ cd.context_text ++ "\n---\n")
      (acc.sources ++ [⟨"Complaint", hit.page_content.take 300, toString hit.index⟩])
      (acc.complaintsOut ++ [⟨hit.index, cd.neo4j_id, hit.page_content.take 300,
        cd.related_documents⟩])
      acc.documentsOut
      (cd.related_documents.foldl
        (fun h rd => addTruthy (addTruthy h rd.neo4j_id) rd.author_node_id)
        (addTruthy acc.highlighted cd.neo4j_id))) = .ok acc' := h2
  injection h2' with h2'
  rw [← h2']
  exact foldl_addTruthy_nodup
    (fun a b hn' => addTruthy_nodup (addTruthy_nodup hn')) _ _
    (addTruthy_nodup hn)

theorem docStep_nodup {graph : Option GraphStore} {acc : LoopAcc} {hit : DHit}
    {acc' : LoopAcc} (h : docStep graph acc hit = .ok acc')
    (hn : acc.highlighted.Nodup) : acc'.highlighted.Nodup := by
  unfold docStep at h
  obtain ⟨cd, h1, h2⟩ := bind_ok h
  have hl1 : (addTruthy acc.highlighted cd.neo4j_id).Nodup := addTruthy_nodup hn
  have hlfin : (match cd.metadata with
      | some meta =>
        meta.citations.foldl (fun (h : List Int) (c : CitationRef) => addTruthy h c.neo4j_id)
          (addTruthy (addTruthy (addTruthy acc.highlighted cd.neo4j_id)
            meta.author_node_id) meta.department_node_id)
      | none => addTruthy acc.highlighted cd.neo4j_id).Nodup := by
    rcases cd.metadata with _ | meta
    · exact hl1
    · exact foldl_addTruthy_nodup (fun a b hn' => addTruthy_nodup hn') _ _
        (addTruthy_nodup (addTruthy_nodup hl1))
  have h2' : @Except.ok String _ (LoopAcc.mk
      (acc.combined ++ "[Document]: " ++ hit.title ++ "\nContent: "
        ++ hit.page_content.take 300 ++ "\n" ++ cd.context_text ++ "\n---\n")
      (acc.sources ++ [⟨"Document", hit.title, hit.doc_id⟩])
      acc.complaintsOut
      (acc.documentsOut ++ [⟨hit.doc_id, cd.neo4j_id, hit.title,
        hit.page_content.take 300, cd.metadata⟩])
      (match cd.metadata with
       | some meta =>
         meta.citations.foldl (fun (h : List Int) (c : CitationRef) => addTruthy h c.neo4j_id)
           (addTruthy (addTruthy (addTruthy acc.highlighted cd.neo4j_id)
             meta.author_node_id) meta.department_node_id)
       | none => addTruthy acc.highlighted cd.neo4j_id)) = .ok acc' := h2
  injection h2' with h2'
  rw [← h2']
  exact hlfin

/-!
### Invariants of the RELATED_TO ingestion
-/

theorem upsertEdge_inv {P : RelEdge → Prop} {edges : List RelEdge} {c d : Nat}
    {s : ℚ} (hinv : ∀ e ∈ edges, P e) (hnew : P ⟨c, d, s⟩) :
    ∀ e ∈ upsertEdge edges c d s, P e := by
  unfold upsertEdge
  split
  · intro e he
    obtain ⟨a, ha, hae⟩ := List.mem_map.mp he
    by_cases hc : a.complaint = c ∧ a.doc = d
    · rw [if_pos hc] at hae
      rw [← hae]
      exact hnew
    · rw [if_neg hc] at hae
      rw [← hae]
      exact hinv a ha
  · intro e he
    rcases List.mem_append.mp he with he | he
    · exact hinv e he
    · obtain rfl : e = ⟨c, d, s⟩ := by simpa using he
      exact hnew

theorem foldl_upsert_inv {P : RelEdge → Prop} {c : Nat} :
    ∀ (rows : List (Nat × ℚ)) (acc : List RelEdge),
      (∀ e ∈ acc, P e) → (∀ p ∈ rows, P ⟨c, p.1, p.2⟩) →
      ∀ e ∈ rows.foldl (fun es p => upsertEdge es c p.1 p.2) acc, P e := by
  intro rows
  induction rows with
  | nil => intro acc hacc _ e he; exact hacc e he
  | cons p rows ih =>
    intro acc hacc hrows e he
    exact ih (upsertEdge acc c p.1 p.2)
      (upsertEdge_inv hacc (hrows p (by simp)))
      (fun q hq => hrows q (by simp [hq])) e he

theorem add_complaints_fold_inv {P : RelEdge → Prop} {sims : Nat → List (Nat × ℚ)} :
    ∀ (cs : List Nat) (acc : List RelEdge),
      (∀ e ∈ acc, P e) →
      (∀ c ∈ cs, ∀ p ∈ (sims c).filter (fun p => (1 : ℚ)/2 < p.2), P ⟨c, p.1, p.2⟩) →
      ∀ e ∈ cs.foldl
        (fun edges c =>
          ((sims c).filter (fun p => (1 : ℚ)/2 < p.2)).foldl
            (fun es p => upsertEdge es c p.1 p.2) edges) acc, P e := by
  intro cs
  induction cs with
  | nil => intro acc hacc _ e he; exact hacc e he
  | cons c cs ih =>
    intro acc hacc hcs e he
    refine ih _ ?_ (fun c' hc' => hcs c' (by simp [hc'])) e he
    exact foldl_upsert_inv _ acc hacc (hcs c (by simp))

/-!
### Claim theorems for the Knowledge Graph Store and Hybrid Retrieval Engine
-/

/-- C8: in every graph state produced by the ingestion of
`302_add_complaints_node.py` (starting from a graph without RELATED_TO
edges), a RELATED_TO edge exists only if its similarity score exceeds the
threshold 0.5, and every edge carries as its `score` property a similarity
score returned by the vector index for exactly that complaint/document
pair. -/
theorem claimC8 (sims : Nat → List (Nat × ℚ)) (complaints : List Nat) :
    ∀ e ∈ add_complaints_link sims complaints,
      (1 : ℚ)/2 < e.score ∧ ∃ c ∈ complaints, e.complaint = c ∧
        (e.doc, e.score) ∈ sims c := by
  intro e he
  unfold add_complaints_link at he
  refine @add_complaints_fold_inv
    (fun e => (1 : ℚ)/2 < e.score ∧ ∃ c ∈ complaints, e.complaint = c ∧
      (e.doc, e.score) ∈ sims c)
    sims complaints []
    (fun e' he' => absurd he' (List.not_mem_nil e')) ?_ e he
  intro c hc p hp
  have hmem := List.mem_filter.mp hp
  refine ⟨by simpa using hmem.2, c, hc, rfl, ?_⟩
  simpa using hmem.1

def c8sims : Nat → List (Nat × ℚ) := fun c =>
  if c = 1 then [(10, 9/10), (11, 3/10)] else []

theorem c8mem : (⟨1, 10, 9/10⟩ : RelEdge) ∈ add_complaints_link c8sims [1] := by
  have h : add_complaints_link c8sims [1] = [⟨1, 10, 9/10⟩] := by
    norm_num [add_complaints_link, c8sims, upsertEdge, List.filter]
  rw [h]
  exact List.mem_singleton.mpr rfl

/-- Witness for C8 on a single complaint with one accepted and one
rejected similarity row. -/
theorem claimC8_witness :
    (1 : ℚ)/2 < (⟨1, 10, 9/10⟩ : RelEdge).score ∧
      ∃ c ∈ [1], (⟨1, 10, 9/10⟩ : RelEdge).complaint = c ∧
        ((⟨1, 10, 9/10⟩ : RelEdge).doc, (⟨1, 10, 9/10⟩ : RelEdge).score) ∈ c8sims c :=
  claimC8 c8sims [1] ⟨1, 10, 9/10⟩ c8mem

/-- C9: a document-hit identifier that matches no Document node (the
store returns zero rows) yields an empty context text, a null node id and
empty metadata, with no exception. -/
theorem claimC9 (g : GraphStore) (id : String) (h : g.docRows id = .ok []) :
    get_document_context (some g) id = .ok ⟨"", none, none⟩ := by
  simp only [get_document_context]
  rw [h]
  rfl

def c9store : GraphStore := ⟨fun _ => .ok [], fun _ => .ok []⟩

/-- Witness for C9 on a store that knows no documents. -/
theorem claimC9_witness :
    get_document_context (some c9store) "미지-1" = .ok ⟨"", none, none⟩ :=
  claimC9 c9store "미지-1" rfl

/-- C5: when the HyDE generator raises, `search` falls back to the raw
question as the embedding query and the whole request proceeds exactly as
the pipeline run on the raw question (no hypothetical document is
surfaced, and the result does not depend on the failed generator). -/
theorem claimC5 (env : Env) (q err : String) (h : env.hydeGen q = .error err) :
    searchReal env q true = searchCore env q q none true ∧
      (∀ r, searchCore env q q none true = .ok r → r.hypothetical_document = none) ∧
      (∀ gen', searchCore ⟨gen', env.answerGen, env.complaintSearch, env.docSearch,
          env.graph⟩ q q none true = searchCore env q q none true) := by
  refine ⟨?_, ?_, ?_⟩
  · unfold searchReal
    rw [show hydeStep env.hydeGen q true = (q, none) from by simp [hydeStep, h]]
  · intro r hr
    obtain ⟨c, d, a1, a2, ans, -, -, -, -, -, hre⟩ := searchCore_ok hr
    rw [hre]
  · intro gen'
    cases env
    rfl

def c5env : Env :=
  ⟨fun _ => .error "generator down", fun _ _ => .ok "답변",
    fun _ _ => .ok [], fun _ _ => .ok [], none⟩

/-- Witness for C5 with a failing HyDE generator. -/
theorem claimC5_witness :
    searchReal c5env "질문" true = searchCore c5env "질문" "질문" none true ∧
      (∀ r, searchCore c5env "질문" "질문" none true = .ok r →
        r.hypothetical_document = none) ∧
      (∀ gen', searchCore ⟨gen', c5env.answerGen, c5env.complaintSearch,
          c5env.docSearch, c5env.graph⟩ "질문" "질문" none true
        = searchCore c5env "질문" "질문" none true) :=
  claimC5 c5env "질문" "generator down" rfl

/-- C10: the `highlighted_nodes` list of every successful retrieve
response contains no duplicate node ids (it is accumulated as a set). -/
theorem claimC10 (env : Env) (q : String) (uh : Bool) (r : SearchResponse)
    (h : searchReal env q uh = .ok r) : r.highlighted_nodes.Nodup := by
  unfold searchReal at h
  obtain ⟨c, d, acc1, acc2, ans, -, -, h3, h4, -, hr⟩ := searchCore_ok h
  have hn1 : acc1.highlighted.Nodup :=
    foldlM_ok_pre (fun acc a acc' hs hp => complaintStep_nodup hs hp) c _ acc1 h3
      List.nodup_nil
  have hn2 : acc2.highlighted.Nodup :=
    foldlM_ok_pre (fun acc a acc' hs hp => docStep_nodup hs hp) d acc1 acc2 h4 hn1
  rw [hr]
  exact hn2

def c10store : GraphStore :=
  ⟨fun _ => .ok [⟨some 41, some "문서", some "D-1", some 42, some "김", some 43,
      some (9/10)⟩],
    fun _ => .ok [⟨some 42, some "김", some 43, some "부서", some 44,
      [⟨some "인용", some "D-2", some 42⟩]⟩]⟩

def c10env : Env :=
  ⟨fun _ => .ok "가상", fun _ _ => .ok "답변",
    fun _ _ => .ok [⟨"민원 본문", 7⟩],
    fun _ _ => .ok [⟨"문서 본문", "D-1", "제목"⟩],
    some c10store⟩

/-- Witness for C10 on a run in which nodes 42 and 43 are reached both
from the complaint hit and from the document hit. -/
theorem claimC10_witness :
    ∃ r, searchReal c10env "질문" false = .ok r ∧ r.highlighted_nodes.Nodup := by
  have hok : isOkE (searchReal c10env "질문" false) = true := by decide
  rcases h : searchReal c10env "질문" false with e | r
  · rw [h] at hok
    simp [isOkE] at hok
  · exact ⟨r, rfl, claimC10 c10env "질문" false r h⟩

/-- C4 (amended): a missing graph handle degrades every per-hit expansion
to an empty fragment while the request still succeeds, and the legacy
server's `get_expanded_context` converts a store-level query error into an
empty fragment; but in `api_server_real.py` a store-level error raised by
an expansion query propagates out of `get_complaint_context` /
`get_document_context` and fails the whole retrieve request (see the
counterexample). -/
theorem claimC4 :
    (∀ (g : LegacyStore) (title err : String),
        g.query title = .error err → get_expanded_context (some g) title = "") ∧
      (∀ id : Int, get_complaint_context none id = .ok ⟨"", none, []⟩) ∧
      (∀ id : String, get_document_context none id = .ok ⟨"", none, none⟩) ∧
      (∀ (env : Env) (q : String) (uh : Bool), env.graph = none →
        (∀ s k, isOkE (env.complaintSearch s k) = true) →
        (∀ s k, isOkE (env.docSearch s k) = true) →
        (∀ c q2, isOkE (env.answerGen c q2) = true) →
        isOkE (searchReal env q uh) = true) := by
  refine ⟨?_, fun id => rfl, fun id => rfl, ?_⟩
  · intro g title err he
    simp only [get_expanded_context]
    rw [he]
  · intro env q uh hg hc hd ha
    rcases env with ⟨g1, g2, g3, g4, g5⟩
    obtain rfl : g5 = none := hg
    unfold searchReal searchCore
    refine isOkE_bind (isOkE_exists (hc _ 2)) ?_
    intro c_docs
    refine isOkE_bind (isOkE_exists (hd _ 2)) ?_
    intro d_docs
    refine isOkE_bind (foldlM_total (fun acc hit => ⟨_, rfl⟩) c_docs _) ?_
    intro acc1
    refine isOkE_bind (foldlM_total (fun acc hit => ⟨_, rfl⟩) d_docs acc1) ?_
    intro acc2
    refine isOkE_bind (isOkE_exists (ha _ _)) ?_
    intro ans
    rfl

def c4failStore : GraphStore := ⟨fun _ => .error "boom", fun _ => .error "boom"⟩

def c4env : Env :=
  ⟨fun _ => .ok "가상", fun _ _ => .ok "답변",
    fun _ _ => .ok [⟨"민원 본문", 7⟩], fun _ _ => .ok [], some c4failStore⟩

/-- Counterexample to C4 as originally stated: with a reachable handle
whose expansion query raises, the whole `/api/search` request fails — the
per-hit store error is not converted into an empty fragment. -/
theorem claimC4_counterexample :
    searchReal c4env "질문" false = .error "boom" := rfl

def c4legacyFail : LegacyStore := ⟨fun _ => .error "down"⟩

def c4okEnv : Env :=
  ⟨fun _ => .ok "가상", fun _ _ => .ok "답변",
    fun _ _ => .ok [⟨"민원 본문", 7⟩], fun _ _ => .ok [], none⟩

/-- Witness for the amended C4. -/
theorem claimC4_witness :
    get_expanded_context (some c4legacyFail) "제목" = "" ∧
      get_complaint_context none 3 = .ok ⟨"", none, []⟩ ∧
      get_document_context none "D-9" = .ok ⟨"", none, none⟩ ∧
      isOkE (searchReal c4okEnv "질문" true) = true :=
  ⟨claimC4.1 c4legacyFail "제목" "down" rfl,
   claimC4.2.1 3,
   claimC4.2.2.1 "D-9",
   claimC4.2.2.2 c4okEnv "질문" true rfl (fun _ _ => rfl) (fun _ _ => rfl)
     (fun _ _ => rfl)⟩

end Sionic
